import Mathlib

/-!
# Verification of the Vision grammar engine

A shallow embedding of the extensible-grammar core of the Vision
acceptance-testing language: the token-type hierarchy (`tokens.py`), the
Definition / Module / Lexicon vocabulary model (`modules.py`), the
lexicon-driven tokenizer (`tokenizer.py`), the line scanner
(`scanner.py`) and the indentation handling of the file scanner
(`visionscanner.py`).

Modelling conventions:
* Python dicts are insertion-ordered association lists with unique keys
  (`Dict` below); `dset` updates in place, `ddel` removes.
* Python `None` (and other falsy hook values) is `Option.none`; a falsy
  string is `none` or `some ""` (see `strFalsy`).
* Callables are defunctionalized into `HookVal`: the one hook behaviour
  the tokenizer claims exercise is `lexicon.add_modules(m)`, represented
  as `HookVal.addModules` holding the names of the captured Modules,
  resolved against a registry of all Modules in scope (the closure
  environment of the Python lambda).
* Exceptions become `Except` with the error enum `LErr`.
-/

namespace Vision

/-- The class hierarchy of `tokens.py` (single inheritance rooted at
`ParseUnit`; `object` is irrelevant because every place the hierarchy is
walked filters with `issubclass(cls, tokens.ParseUnit)`). -/
inductive TokenType where
  | ParseUnit | Command | Token | Noun | AttributeNoun | Verb
  | CommandModifier | Within | Comment | RecoverableError
  | RelativePostion | StreamReorderer | ScopeChange | Seperator
  | Ordinal | Literal | FileLiteral | InteractiveFileLiteral
  deriving DecidableEq, Repr

/-- Python's MRO for each class of `tokens.py`, restricted to the
subclasses of `ParseUnit` (most specific first), exactly the list
`[cls for cls in t.__mro__ if issubclass(cls, tokens.ParseUnit)]`. -/
def TokenType.mro : TokenType → List TokenType
  | .ParseUnit => [.ParseUnit]
  | .Command => [.Command, .ParseUnit]
  | .Token => [.Token, .ParseUnit]
  | .Noun => [.Noun, .Token, .ParseUnit]
  | .AttributeNoun => [.AttributeNoun, .Noun, .Token, .ParseUnit]
  | .Verb => [.Verb, .Token, .ParseUnit]
  | .CommandModifier => [.CommandModifier, .Token, .ParseUnit]
  | .Within => [.Within, .CommandModifier, .Token, .ParseUnit]
  | .Comment => [.Comment, .CommandModifier, .Token, .ParseUnit]
  | .RecoverableError => [.RecoverableError, .CommandModifier, .Token, .ParseUnit]
  | .RelativePostion => [.RelativePostion, .Token, .ParseUnit]
  | .StreamReorderer => [.StreamReorderer, .Token, .ParseUnit]
  | .ScopeChange => [.ScopeChange, .Token, .ParseUnit]
  | .Seperator => [.Seperator, .Token, .ParseUnit]
  | .Ordinal => [.Ordinal, .Token, .ParseUnit]
  | .Literal => [.Literal, .Token, .ParseUnit]
  | .FileLiteral => [.FileLiteral, .Literal, .Token, .ParseUnit]
  | .InteractiveFileLiteral => [.InteractiveFileLiteral, .FileLiteral, .Literal, .Token, .ParseUnit]

/-- `issubclass(a, b)` for the token hierarchy. -/
def issub (a b : TokenType) : Bool := b ∈ a.mro

/-- `str(token_type)`, used only as the default for `title`. -/
def TokenType.pyStr (t : TokenType) : String := reprStr t

/-! ## Python dicts as insertion-ordered association lists -/

/-- An insertion-ordered map with unique keys, the behaviourally relevant
fragment of a Python dict. -/
abbrev Dict (K V : Type) := List (K × V)

/-- `d[k]` as an `Option`. -/
def dlookup [DecidableEq K] : Dict K V → K → Option V
  | [], _ => none
  | (k, v) :: rest, key => if k = key then some v else dlookup rest key

/-- `k in d`. -/
def dmem [DecidableEq K] (d : Dict K V) (k : K) : Bool := (dlookup d k).isSome

/-- `d[k] = v`: replace in place if present, else append. -/
def dset [DecidableEq K] : Dict K V → K → V → Dict K V
  | [], key, val => [(key, val)]
  | (k, v) :: rest, key, val =>
      if k = key then (k, val) :: rest else (k, v) :: dset rest key val

/-- `del d[k]` (no-op if absent; Python would raise, but every `del` in
the modelled code is guarded by a membership test). -/
def ddel [DecidableEq K] : Dict K V → K → Dict K V
  | [], _ => []
  | (k, v) :: rest, key => if k = key then rest else (k, v) :: ddel rest key

theorem dlookup_dset [DecidableEq K] (d : Dict K V) (k : K) (v : V) :
    dlookup (dset d k v) k = some v := by
  induction d with
  | nil => simp [dset, dlookup]
  | cons h t ih =>
      obtain ⟨k1, v1⟩ := h
      by_cases hk : k1 = k <;> simp [dset, dlookup, hk, ih]

theorem dlookup_dset_ne [DecidableEq K] (d : Dict K V) (k k2 : K) (v : V) (h : k ≠ k2) :
    dlookup (dset d k v) k2 = dlookup d k2 := by
  induction d with
  | nil => simp [dset, dlookup, h]
  | cons hd t ih =>
      obtain ⟨k1, v1⟩ := hd
      by_cases hk : k1 = k
      · subst hk; simp [dset, dlookup, h]
      · simp [dset, dlookup, hk, ih]

theorem mem_keys_of_dlookup [DecidableEq K] (d : Dict K V) (k : K) (v : V)
    (h : dlookup d k = some v) : k ∈ d.map Prod.fst := by
  induction d with
  | nil => simp [dlookup] at h
  | cons hd t ih =>
      obtain ⟨k1, v1⟩ := hd
      by_cases hk : k1 = k
      · simp [hk]
      · simp only [dlookup, if_neg hk] at h
        simpa using Or.inr (ih h)

theorem dlookup_ddel [DecidableEq K] (d : Dict K V) (k : K)
    (hd : d.map Prod.fst |>.Nodup) : dlookup (ddel d k) k = none := by
  induction d with
  | nil => simp [ddel, dlookup]
  | cons hd2 t ih =>
      obtain ⟨k1, v1⟩ := hd2
      simp only [List.map_cons, List.nodup_cons] at hd
      by_cases hk : k1 = k
      · subst hk
        cases h2 : dlookup t k1 with
        | none => simp [ddel, h2]
        | some v2 => exact absurd (mem_keys_of_dlookup t k1 v2 h2) (by simpa using hd.1)
      · simp [ddel, dlookup, hk, ih hd.2]

theorem dlookup_ddel_ne [DecidableEq K] (d : Dict K V) (k k2 : K) (h : k ≠ k2) :
    dlookup (ddel d k) k2 = dlookup d k2 := by
  induction d with
  | nil => simp [ddel, dlookup]
  | cons hd t ih =>
      obtain ⟨k1, v1⟩ := hd
      by_cases hk : k1 = k
      · subst hk; simp [ddel, dlookup, h]
      · simp [ddel, dlookup, hk, ih]

/-! ## Strings: Python truthiness and the default pattern -/

/-- A Python-falsy optional string: `None` or `""`. -/
def strFalsy : Option String → Bool
  | none => true
  | some s => s = ""

/-- Python `a or b` on optional strings. -/
def pyOr (a b : Option String) : Option String := if strFalsy a then b else a

/-- `str.split()` (split on whitespace runs, dropping empties),
character-level. -/
def splitWordsAux : List Char → List Char → List (List Char)
  | [], [] => []
  | [], acc => [acc.reverse]
  | c :: cs, acc =>
      if c = ' ' ∨ c = '\t' ∨ c = '\n' then
        match acc with
        | [] => splitWordsAux cs []
        | _ => acc.reverse :: splitWordsAux cs []
      else splitWordsAux cs (c :: acc)

def splitWords (s : String) : List String :=
  (splitWordsAux s.data []).map String.mk

/-- `r"[ \t]+".join(name.split())`: the default pattern built from a
keyword (for a single word this is the word itself; for several words it
is a regex source requiring whitespace between them). -/
def defaultPattern (n : String) : String :=
  String.intercalate "[ \\t]+" (splitWords n)

/-! ## Definitions (`modules.py`) -/

/-- A defunctionalized hook callable.  `addModules ns` stands for
`lambda token, lexicon: lexicon.add_modules(m)` for the Modules the
closure captured (named `ns`, resolved against a registry); `fn i` is
any other callable, identified by a tag. -/
inductive HookVal where
  | addModules (names : List String)
  | fn (id : Nat)
  deriving DecidableEq, Repr

/-- An outer key of `consumers`/`interpretations`: a consuming token
category or a specific keyword. -/
inductive CKey where
  | ty (t : TokenType)
  | str (s : String)
  deriving DecidableEq, Repr

/-- A key of `Module.definitions`: a keyword or a token-type default. -/
inductive DefKey where
  | kw (s : String)
  | ty (t : TokenType)
  deriving DecidableEq, Repr

/-- The concrete class of a stored Definition (`FullDefinition` or its
subclass `CompilableDefinition`).  `DefinitionAlias` never appears in
the modelled Module stores; it is modelled separately (see the arena
model below) and as the view `aliasView` where `Lexicon.__getitem__`
wraps one. -/
inductive DefKind where
  | full | compilable
  deriving DecidableEq, Repr

/-- The data of a `FullDefinition` (and, via `kind := .compilable`, of a
`CompilableDefinition`; the three extra fields stay empty for plain
`FullDefinition`s).  `consumers` maps a consumer to `none` (Python
`None`) or a hook dict whose values are `none` (falsy) or a callable. -/
structure FullDef where
  kind : DefKind := .full
  token_type : TokenType
  name : Option String := none
  title : Option String := none
  pattern : Option String := none
  consumers : Dict CKey (Option (Dict String (Option HookVal))) := []
  interpretations : Dict CKey (Option HookVal) := []
  outputters : Dict String (Option HookVal) := []
  good_xpath_templates : List String := []
  sloppy_xpath_templates : List String := []
  filters : List HookVal := []
  deriving DecidableEq, Repr

/-- `__attrs_post_init__` of `FullDefinition`: derive `pattern` from the
name when it is `None` (not merely falsy), and default `title`. -/
def postInit (d : FullDef) : FullDef :=
  let p := match d.pattern, d.name with
    | none, some n => some (defaultPattern n)
    | p, _ => p
  { d with pattern := p,
           title := pyOr d.title (pyOr d.name (some d.token_type.pyStr)) }

/-- Errors raised by the vocabulary code: `RemovedDefinition`,
`KeyError`, `ValueError` (merge-contract violations) and `TypeError`. -/
inductive LErr where
  | removed
  | keyError (k : String)
  | valueError
  | typeError
  deriving DecidableEq, Repr

/-- `merge_implementations` of `FullDefinition.update`: merge an inner
hook dict hook-by-hook; a falsy (`none`) incoming value deletes an
existing hook, otherwise the incoming value is stored (a falsy value for
an absent hook is stored as a tombstone). -/
def mergeImplementations (selfImpl otherImpl : Dict String (Option HookVal)) :
    Dict String (Option HookVal) :=
  otherImpl.foldl (fun acc p =>
    if dmem acc p.1 then
      match p.2 with
      | none => ddel acc p.1
      | some i => dset acc p.1 (some i)
    else dset acc p.1 p.2) selfImpl

/-- `update_hooks` of `FullDefinition.update`, for the nested `consumers`
map (callback = `merge_implementations`).  An outer value that `is None`
deletes the bucket outright; otherwise with `merge` and a non-`None`
current bucket the inner dicts are merged, else the bucket is replaced. -/
def updateHooksNested (selfH otherH : Dict CKey (Option (Dict String (Option HookVal))))
    (merge : Bool) : Dict CKey (Option (Dict String (Option HookVal))) :=
  otherH.foldl (fun acc p =>
    match dlookup acc p.1 with
    | some cur =>
        match p.2 with
        | none => ddel acc p.1
        | some hooks =>
            match cur with
            | some curHooks =>
                if merge then dset acc p.1 (some (mergeImplementations curHooks hooks))
                else dset acc p.1 (some hooks)
            | none => dset acc p.1 (some hooks)
    | none => dset acc p.1 p.2) selfH

/-- `update_hooks` with the default no-op callback (used for
`outputters` and `interpretations`): with `merge` and an existing
non-`None` value, the callback does nothing, so the old value is kept. -/
def updateHooksFlat [DecidableEq K] (selfH otherH : Dict K (Option HookVal))
    (merge : Bool) : Dict K (Option HookVal) :=
  otherH.foldl (fun acc p =>
    match dlookup acc p.1 with
    | some cur =>
        match p.2 with
        | none => ddel acc p.1
        | some hook =>
            match cur with
            | some _ => if merge then acc else dset acc p.1 (some hook)
            | none => dset acc p.1 (some hook)
    | none => dset acc p.1 p.2) selfH

/-- Ordered-set union (`OrderedSet.__or__`): left operand's order, then
the right's genuinely new elements (membership by `__eq__`, i.e. `BEq`). -/
def osUnion [BEq α] (a b : List α) : List α := a ++ b.filter (fun x => !(a.contains x))

/-- Ordered-set intersection (`OrderedSet.__and__`). -/
def osInter [BEq α] (a b : List α) : List α := a.filter (fun x => b.contains x)

/-- `FullDefinition.update(self, other, merge)` together with the
`Definition.update` contract check and, when `self` is a
`CompilableDefinition`, the `CompilableDefinition.update` continuation
— including its faithful slip: the local `other_filters` is read from
`other.sloppy_xpath_templates` and stored back into
`sloppy_xpath_templates`, so `filters` is never merged.  The final
`attr.validate(self)` re-checks that good and sloppy templates stay
disjoint. -/
def fdUpdate (self other : FullDef) (merge : Bool) : Except LErr FullDef :=
  -- Definition.update: `issubclass(other.type, self.type) or
  -- issubclass(self.type, other.type)` — with the two concrete classes
  -- (Compilable <: Full) this never fails, but we keep the check.
  if ¬(self.kind = other.kind ∨ self.kind = .full ∨ other.kind = .full) then
    .error .valueError
  else if ¬(issub other.token_type self.token_type ∨
            issub self.token_type other.token_type) then
    .error .valueError
  else if self.name ≠ other.name then
    .error .valueError
  else
    let d := { self with
      pattern := if merge then pyOr other.pattern self.pattern else other.pattern,
      consumers := updateHooksNested self.consumers other.consumers merge,
      outputters := updateHooksFlat self.outputters other.outputters merge,
      interpretations := updateHooksFlat self.interpretations other.interpretations merge }
    if self.kind = .compilable then
      -- CompilableDefinition.update, after the super() call; the
      -- AttributeError guards skip each block when `other` is a plain
      -- FullDefinition (no template attributes).
      let good := if other.kind = .compilable then
          (if merge then osUnion d.good_xpath_templates other.good_xpath_templates
           else other.good_xpath_templates)
        else d.good_xpath_templates
      let sloppy1 := if other.kind = .compilable then
          (if merge then osUnion d.sloppy_xpath_templates other.sloppy_xpath_templates
           else other.sloppy_xpath_templates)
        else d.sloppy_xpath_templates
      -- the `other_filters` block: reads other.sloppy_xpath_templates
      -- and assigns to self.sloppy_xpath_templates (the filters field is
      -- left untouched), exactly as the source does
      let sloppy2 := if other.kind = .compilable then
          (if merge then osUnion sloppy1 other.sloppy_xpath_templates
           else other.sloppy_xpath_templates)
        else sloppy1
      let d2 := { d with good_xpath_templates := good,
                         sloppy_xpath_templates := sloppy2 }
      -- attr.validate(self): _validate_sloppy_xpath_templates
      if osInter d2.sloppy_xpath_templates d2.good_xpath_templates ≠ [] then
        .error .valueError
      else .ok d2
    else .ok d

/-! ## Modules -/

/-- A `Module`: named bundle of Definitions with declared requirements.
`module_tokens` is omitted: its default-building comprehension filters
with `isinstance(getattr(tokens, t), tokens.ParseUnit)`, which no class
satisfies, so it stays `{}` everywhere (which also keeps the typo'd
`gatattr` from ever being evaluated), making `module_tokens.get(tt, tt)`
the identity.  `module_definitions` maps keywords / token types to the
Definition class used when building composites. -/
inductive Module where
  | mk (name : String) (module_definitions : Dict DefKey DefKind)
       (definitions : Dict DefKey (Option FullDef))
       (required_modules : List Module)
  deriving Repr

/- Structural equality on Modules, as generated by `attr.s` for
`Module.__eq__` (all fields compared; requirements recursively). -/
mutual

def Module.beq : Module → Module → Bool
  | .mk n1 md1 d1 r1, .mk n2 md2 d2 r2 =>
      n1 == n2 && md1 == md2 && d1 == d2 && Module.beqList r1 r2

def Module.beqList : List Module → List Module → Bool
  | [], [] => true
  | a :: as, b :: bs => Module.beq a b && Module.beqList as bs
  | _, _ => false

end

instance : BEq Module := ⟨Module.beq⟩

def Module.name : Module → String
  | .mk n _ _ _ => n

def Module.module_definitions : Module → Dict DefKey DefKind
  | .mk _ md _ _ => md

def Module.definitions : Module → Dict DefKey (Option FullDef)
  | .mk _ _ d _ => d

def Module.required_modules : Module → List Module
  | .mk _ _ _ r => r

/-- `Module.available_modules`: the source folds *singleton* sets of the
direct requirements plus the module itself — it does not recurse into
the requirements' own `available_modules`. -/
def Module.available_modules (m : Module) : List Module :=
  match (osUnion m.required_modules [m]).map (fun x => [x]) with
  | [] => []
  | x :: rest => rest.foldl osUnion x

/-- `Lexicon.available_modules`: ordered union of every active Module's
`available_modules`.  (On an empty Lexicon the Python `reduce` raises
`TypeError`; the claims never reach that case and we return `[]`.) -/
def lexiconAvailable (mods : List Module) : List Module :=
  match mods.map Module.available_modules with
  | [] => []
  | x :: rest => rest.foldl osUnion x

/-- `Lexicon.add_modules`: append as most recent (`OrderedSet` append —
already-present modules keep their position). -/
def addModuleL (lex : List Module) (m : Module) : List Module :=
  if lex.contains m then lex else lex ++ [m]

/-- The search for the Definition class in `Module.__getitem__`: first
the keyword, then the token type's MRO, defaulting to
`FullDefinition`.  (`module_definitions.get(None)` is always `None`, so
a `None` keyword contributes nothing.) -/
def findDefType (m : Module) (kw : Option String) (tt : TokenType) : DefKind :=
  let keys := (match kw with | some s => [DefKey.kw s] | none => []) ++ tt.mro.map .ty
  match keys.findSome? (fun k => dlookup m.module_definitions k) with
  | some dt => dt
  | none => .full

/-- The view `FullDefinition.update` has of
`DefinitionAlias(name=kw, pattern=target.pattern, target=target)`: the
alias carries its own `name`/`pattern`/`title` (with the alias's
`__attrs_post_init__` applied) and forwards every other attribute to
the target. -/
def aliasView (kw : Option String) (target : FullDef) : FullDef :=
  let p := match target.pattern, kw with
    | none, some n => if n ≠ "" then some (defaultPattern n) else none
    | p, _ => p
  { target with name := kw, pattern := p,
                title := pyOr kw (some target.token_type.pyStr) }

/-- The common tail of `Module.__getitem__` once the token type is
known: build a fresh Definition of the resolved class, fold the stored
token-type defaults generic-to-specific (wrapped in aliases, a falsy
entry raising `RemovedDefinition`), then apply the keyword's own stored
Definition. -/
def moduleCommon (m : Module) (kw : Option String) (tt : TokenType) :
    Except LErr FullDef := do
  let dtype := findDefType m kw tt
  let init := postInit { kind := dtype, token_type := tt, name := kw }
  let d ← (tt.mro.reverse).foldlM (fun d t =>
      match dlookup m.definitions (.ty t) with
      | some none => .error .removed
      | some (some stored) => fdUpdate d (aliasView kw stored) true
      | none => pure d) init
  match kw with
  | some s =>
      match dlookup m.definitions (.kw s) with
      | some (some stored) => fdUpdate d stored true
      | some none => .error .typeError
      | none => pure d
  | none => pure d

/-- `module[keyword]` (single-argument `Module.__getitem__`): a stored
falsy entry raises `RemovedDefinition`, an absent keyword `KeyError`;
otherwise the stored entry supplies the token type.  (Python would
tuple-unpack a 2-character keyword; the model keeps the two call shapes
as separate functions.) -/
def moduleGetKw (m : Module) (s : String) : Except LErr FullDef :=
  if s ≠ "" then
    match dlookup m.definitions (.kw s) with
    | some none => .error .removed
    | some (some d) => moduleCommon m (some s) d.token_type
    | none => .error (.keyError s)
  else
    match dlookup m.definitions (.kw "") with
    | some none => .error .typeError  -- None.token_type: AttributeError
    | some (some d) => moduleCommon m (some "") d.token_type
    | none => .error (.keyError "")

/-- `module[keyword, token_type]` (tuple form of `Module.__getitem__`). -/
def moduleResolve (m : Module) (kw : Option String) (tt : TokenType) :
    Except LErr FullDef :=
  match kw with
  | some s =>
      if s ≠ "" ∧ dlookup m.definitions (.kw s) = some none then .error .removed
      else moduleCommon m kw tt
  | none => moduleCommon m none tt

/-! ## Lexicon resolution (`Lexicon.__getitem__`, `keys`, `items`) -/

/-- The token-type scan of `Lexicon.__getitem__`: walk the available
modules most recent first; the first module mentioning the keyword is
authoritative, and `if module[key]` re-runs the full single-argument
lookup, so a removal (or a type-level removal inside it) escapes as an
exception. -/
def scanTokenType : List Module → String → Except LErr TokenType
  | [], key => .error (.keyError key)
  | m :: rest, key =>
      if dmem m.definitions (.kw key) then
        match moduleGetKw m key with
        | .error e => .error e
        | .ok d => .ok d.token_type
      else scanTokenType rest key

/-- One step of the fold of `Lexicon.__getitem__`: a
`RemovedDefinition` resets the accumulator to `None`; a class change
re-homes the accumulator into the newer class; each contribution is
applied wrapped in a `DefinitionAlias` with `update(merge=True)`. -/
def lexFoldStep (key : String) (tt : TokenType) (acc : Option FullDef)
    (m : Module) : Except LErr (Option FullDef) :=
  match moduleResolve m (some key) tt with
  | .error .removed => pure none
  | .error e => .error e
  | .ok defn =>
      match acc with
      | none => do
          let base := postInit { kind := defn.kind, token_type := tt, name := some key }
          let r ← fdUpdate base (aliasView (some key) defn) true
          pure (some r)
      | some cur =>
          if cur.kind ≠ defn.kind then do
            let temp := postInit { kind := defn.kind, token_type := tt, name := some key }
            let temp2 ← fdUpdate temp cur true
            let r ← fdUpdate temp2 (aliasView (some key) defn) true
            pure (some r)
          else do
            let r ← fdUpdate cur (aliasView (some key) defn) true
            pure (some r)

/-- The fold of `Lexicon.__getitem__`, oldest available module first. -/
def lexFold (avail : List Module) (key : String) (tt : TokenType) :
    Except LErr (Option FullDef) :=
  avail.foldlM (lexFoldStep key tt) none

/-- `clean_hooks` with its default callback: strip outer `None`
tombstones only. -/
def cleanOuter [DecidableEq K] (d : Dict K (Option V)) : Dict K (Option V) :=
  d.filter (fun p => p.2.isSome)

/-- `lexicon[key]` over an explicit available-module list. -/
def lexGetAvail (avail : List Module) (key : String) : Except LErr FullDef := do
  let tt ← scanTokenType avail.reverse key
  let dOpt ← lexFold avail key tt
  match dOpt with
  | none => .error (.keyError key)
  | some d => pure { d with
      consumers := cleanOuter d.consumers,
      interpretations := cleanOuter d.interpretations,
      outputters := cleanOuter d.outputters }

/-- `lexicon[key]`. -/
def lexGet (mods : List Module) (key : String) : Except LErr FullDef :=
  lexGetAvail (lexiconAvailable mods) key

/-- `Lexicon.keys()`: every string keyword of every available module,
kept when its per-module lookup resolves and discarded again when a
later module's lookup raises `RemovedDefinition`.  (CPython iterates a
hash set; the model keeps first-insertion order, which the claims never
depend on.) -/
def lexKeys (avail : List Module) : Except LErr (List String) :=
  avail.foldlM (fun ks m =>
    m.definitions.foldlM (fun ks p =>
      match p.1 with
      | .kw s =>
          match moduleGetKw m s with
          | .error .removed => pure (if s ∈ ks then ks.erase s else ks)
          | .error e => .error e
          | .ok _ => pure (if s ∈ ks then ks else ks ++ [s])
      | .ty _ => pure ks) ks) []

/-- `Lexicon.items()` = `zip(keys(), values())`. -/
def lexItems (mods : List Module) : Except LErr (List (String × FullDef)) := do
  let avail := lexiconAvailable mods
  let ks ← lexKeys avail
  ks.mapM (fun k => do
    let d ← lexGetAvail avail k
    pure (k, d))

/-! ## The tokenizer (`tokenizer.py`) -/

/-- Case-insensitive character-list comparison of a pattern against the
head of the remaining code. -/
def ciStarts : List Char → List Char → Bool
  | [], _ => true
  | _ :: _, [] => false
  | p :: ps, c :: cs => (p.toLower == c.toLower) && ciStarts ps cs

/-- `re.compile(pattern, re.IGNORECASE).match(code, pos)`, for patterns
that are regex-literal (no metacharacters) — which covers every pattern
the claims exercise (single-word keywords and the `' '` separator).
Returns the match end (`match.end()`); a match is anchored at `pos`, so
`match.start() = pos`. -/
def matchAt (pattern : String) (code : List Char) (pos : Nat) : Option Nat :=
  if ciStarts pattern.data (code.drop pos) then some (pos + pattern.length) else none

/-- `len(pair[1].pattern)` — the sort key of the candidate ordering.  (A
`None` pattern would raise `TypeError` in Python; composite Definitions
always carry one.) -/
def patLen (d : FullDef) : Nat := (d.pattern.getD "").length

/-- Stable insertion: place after every element of smaller-or-equal key,
matching Python's stable `sorted`. -/
def insertByLen (p : String × FullDef) :
    List (String × FullDef) → List (String × FullDef)
  | [] => [p]
  | q :: rest =>
      if patLen q.2 ≤ patLen p.2 then q :: insertByLen p rest else p :: q :: rest

/-- `sorted(def_items, key=lambda pair: len(pair[1].pattern))`. -/
def sortByPatLen (l : List (String × FullDef)) : List (String × FullDef) :=
  l.foldl (fun acc p => insertByLen p acc) []

/-- The inner `for keyword, definition in definitions.items()` loop:
the first candidate (in sorted order) whose pattern matches at `pos`. -/
def findMatch : List (String × FullDef) → List Char → Nat →
    Option (String × FullDef × Nat)
  | [], _, _ => none
  | p :: rest, code, pos =>
      match matchAt (p.2.pattern.getD "") code pos with
      | some e => some (p.1, p.2, e)
      | none => findMatch rest code pos

/-- A produced token: its category and the span recorded in its
`CommandCodeProvider` (the `definition` back-pointer is dropped: no
claim inspects it). -/
structure Tok where
  ttype : TokenType
  start : Nat
  stop : Nat
  deriving DecidableEq, Repr

/-- Outcome of `tokenize`: the token list, a `BadToken` with its span
(`estop = none` meaning "to end of line"), a propagated exception from
lexicon resolution or hook invocation, or fuel exhaustion (where the
Python loop would not terminate). -/
inductive TokResult where
  | ok (toks : List Tok)
  | bad (estart : Nat) (estop : Option Nat)
  | err (e : LErr)
  | fuel
  deriving DecidableEq, Repr

/-- Run one hook callable against the Lexicon: the modelled
`lambda token, lexicon: lexicon.add_modules(m)` closures append their
captured Modules (resolved by name from the registry `reg`, the model
of the closure environment); any other callable leaves the Lexicon
alone. -/
def runHook (reg : List Module) (lex : List Module) : HookVal → List Module
  | .addModules names => names.foldl (fun lex n =>
      match reg.find? (fun m => m.name == n) with
      | some m => addModuleL lex m
      | none => lex) lex
  | .fn _ => lex

/-- The hook-firing loop of `tokenize`: for every class in the command's
MRO that is a `Command`, if the matched composite Definition has a
consumer bucket for it containing `posttokenize`, call it.  A `None`
bucket (`'posttokenize' in None`) or a falsy hook value (`None(...)`)
raises `TypeError`. -/
def firePosttokenize (reg : List Module) (cmdType : TokenType) (d : FullDef)
    (lex : List Module) : Except LErr (List Module) :=
  (cmdType.mro.filter (fun c => issub c .Command)).foldlM (fun lex ct =>
    match dlookup d.consumers (.ty ct) with
    | some none => .error .typeError
    | some (some hm) =>
        match dlookup hm "posttokenize" with
        | some none => .error .typeError
        | some (some hv) => pure (runHook reg lex hv)
        | none => pure lex
    | none => pure lex) lex

/-- The `while code[start:]` loop of `tokenize`.  State: the Lexicon's
active modules (hooks mutate it), the cursor, the start of an open
unrecognized run (`end`), and the tokens found so far.  `lexicon.items()`
is re-fetched every iteration.  A match while a run is open breaks out
and reports the run ending at `match.start()` (= the current cursor); a
match with no open run materializes the token, fires `posttokenize`,
appends, and advances to `match.end()`; no match opens/extends the run
one character at a time. -/
def tokenizeLoop (reg : List Module) (cmdType : TokenType) (code : List Char) :
    Nat → List Module → Nat → Option Nat → List Tok → TokResult
  | 0, _, _, _, _ => .fuel
  | fuel+1, lex, start, endv, found =>
      if start < code.length then
        match lexItems lex with
        | .error e => .err e
        | .ok its =>
            match findMatch (sortByPatLen its) code start with
            | some r =>
                match endv with
                | none =>
                    match firePosttokenize reg cmdType r.2.1 lex with
                    | .error e => .err e
                    | .ok lex2 =>
                        tokenizeLoop reg cmdType code fuel lex2 r.2.2 none
                          (found ++ [⟨r.2.1.token_type, start, r.2.2⟩])
                | some e => .bad e (some start)
            | none =>
                tokenizeLoop reg cmdType code fuel lex (start + 1)
                  (some (endv.getD start)) found
      else
        match endv with
        | some e => .bad e none
        | none => .ok found

/-- `tokenize(command, lexicon)`: the command's code against the
Lexicon's modules.  `code.length + 1` fuel covers every terminating
run (the cursor advances by at least one per iteration unless a pattern
matches the empty string, where Python loops forever). -/
def tokenize (reg : List Module) (cmdType : TokenType) (mods : List Module)
    (code : List Char) : TokResult :=
  tokenizeLoop reg cmdType code (code.length + 1) mods 0 none []

/-! ## DefinitionAlias targets and the cycle check (`modules.py`)

Arena-style store: alias targets are handles (indices), so that cyclic
chains — which Python object graphs can form — are representable.
Object identity (`is`) becomes handle equality. -/

/-- A Definition as seen by the alias machinery: owned, or an alias
holding its target's handle. -/
inductive ADef where
  | full (name : String) (token_type : TokenType)
  | alias (name : String) (target : Nat)
  deriving DecidableEq, Repr

/-- `_validate_target_cycles(self, name, value)`: walk the target chain
while it is an alias; raise `ValueError` when a link's target `is self`.
`some true` = passed, `some false` = raised, `none` = the Python `while`
never terminates (a pre-existing cycle not passing through `self`;
`fuel = arena.length + 1` makes that the only `none` case). -/
def validateTargetCycles (arena : List ADef) (selfIdx : Nat) :
    Nat → Nat → Option Bool
  | 0, _ => none
  | fuel + 1, v =>
      match arena[v]? with
      | some (.alias _ tgt) =>
          if tgt = selfIdx then some false
          else validateTargetCycles arena selfIdx fuel tgt
      | _ => some true

/-- `DefinitionAlias(name=..., target=...)`: the attrs-generated
`__init__` runs the validators, so the cycle walk happens eagerly; the
new alias would live at handle `arena.length`. -/
def mkAliasA (arena : List ADef) (name : String) (target : Nat) :
    Option (Except Unit (List ADef)) :=
  match validateTargetCycles arena arena.length (arena.length + 1) target with
  | none => none
  | some false => some (.error ())
  | some true => some (.ok (arena ++ [.alias name target]))

/-- `alias.target = value` through `DefinitionAlias.__setattr__`:
`'target' in self.__slots__`, so the slot descriptor is written
directly — no validator (hence no cycle check) runs, and the assignment
cannot fail. -/
def setTargetA (arena : List ADef) (i : Nat) (t : Nat) : List ADef :=
  match arena[i]? with
  | some (.alias n _) => arena.set i (.alias n t)
  | _ => arena

/-- An explicit `attr.validate(self)` on the alias at handle `i` (run by
`DefinitionAlias.update` and `Module.add_definition`), re-running the
cycle walk on the current target. -/
def attrValidateA (arena : List ADef) (i : Nat) : Option Bool :=
  match arena[i]? with
  | some (.alias _ tgt) => validateTargetCycles arena i (arena.length + 1) tgt
  | _ => some true

/-! ## `Scanner.advance` / `Scanner.rewind` (`scanner.py`) -/

/-- The `Scanner` state touched by `advance`/`rewind`.  (The source's
`name` attribute carries a stray trailing comma — a tuple, not an attrs
attribute — and plays no role here.) -/
structure ScannerS where
  lines : List String
  position : Int
  deriving DecidableEq, Repr

/-- `_validate_position`: `0 <= position < len(self.lines)`. -/
def validPos (s : ScannerS) : Bool :=
  decide (0 ≤ s.position ∧ s.position < (s.lines.length : Int))

/-- `advance`: increment, `attr.validate`, and on `IndexError`/`TypeError`
restore the old position and re-raise; returns the new position. -/
def ScannerS.advance (s : ScannerS) : Except Unit Int × ScannerS :=
  let s1 : ScannerS := { s with position := s.position + 1 }
  if validPos s1 then (.ok s1.position, s1)
  else (.error (), { s1 with position := s1.position - 1 })

/-- `rewind`: decrement with the same protocol. -/
def ScannerS.rewind (s : ScannerS) : Except Unit Int × ScannerS :=
  let s1 : ScannerS := { s with position := s.position - 1 }
  if validPos s1 then (.ok s1.position, s1)
  else (.error (), { s1 with position := s1.position + 1 })

/-! ## Indentation handling of `VisionFileScanner.scanline`
(`visionscanner.py`) -/

/-- A token of the regex-table scanner, as far as indentation handling
cares: a leading `ScopeChange` (four spaces) or anything else. -/
inductive VTok where
  | scopeChange
  | other (tag : Nat)
  deriving DecidableEq, Repr

/-- One open scope of `command.scopes`: whether `scope.scanner is self`,
and the label/type its synthesized `End` line would use. -/
structure ScopeInfo where
  fromSelf : Bool
  label : String
  stype : String
  deriving DecidableEq, Repr

/-- The parser-side state `scanline` can mutate on a dedent: the
subcommand scanner's pending lines and which scanner is current. -/
structure SubState where
  sublines : List String
  scannerIsSub : Bool
  deriving DecidableEq, Repr

/-- Outcome of `VisionFileScanner.scanline` (the command object is
implicit in `toks`): the filtered token list, a
`GarbageInputError("Too many indents on line")`, or the `StopIteration`
that hands control to the subcommand side channel. -/
inductive ScanOut where
  | toks (l : List VTok)
  | garbage
  | stop
  deriving DecidableEq, Repr

/-- The single-quote character (written by code point to keep it out of
the source text). -/
def quoteChar : Char := Char.ofNat 39

/-- `VisionFileScanner.scanline` after the `super()` call: count leading
`ScopeChange` tokens; fail on over-indent before anything else; filter
the `ScopeChange`s out; on a dedent of this scanner's scopes, queue the
synthesized `End <type> <label>` line on the subcommand scanner, make it
current, and raise `StopIteration`. -/
def scanlineVFS (toks : List VTok) (scopes : List ScopeInfo) (st : SubState) :
    ScanOut × SubState :=
  let scopeLevel := (toks.takeWhile (fun t => t == .scopeChange)).length
  if scopeLevel > scopes.length then
    (.garbage, st)
  else
    let rest := toks.filter (fun t => !(t == .scopeChange))
    let selfCount := (scopes.filter (fun sc => sc.fromSelf)).length
    if scopeLevel < selfCount ∧ scopeLevel < scopes.length then
      match scopes[scopeLevel + (scopes.length - selfCount)]? with
      | some scope =>
          let marker := if scope.label.contains quoteChar then "\""
                        else String.singleton quoteChar
          let line := "End " ++ scope.stype ++ " " ++ marker ++ scope.label ++ marker
          (.stop, { sublines := st.sublines ++ [line], scannerIsSub := true })
      | none => (.stop, st)
    else
      (.toks rest, st)

/-! ## Helper lemmas -/

theorem issub_refl (t : TokenType) : issub t t = true := by
  cases t <;> decide

/-! ## C3: `Module.available_modules` and the transitive closure -/

def modC3c : Module := .mk "modC" [] [] []
def modC3b : Module := .mk "modB" [] [] [modC3c]
def modC3a : Module := .mk "modA" [] [] [modC3b]

/-- C3: the claim states `available_modules` is the dependency-first
flattening of the *transitive* closure (requirements of requirements
included).  Evaluating the code on `modA` requiring `modB` requiring
`modC` yields `[modB, modA]`: the fold wraps each direct requirement in
a singleton instead of recursing into its `available_modules`, so
`modC` — required by a requirement — is missing, although the method's
own docstring promises "its required modules, and their requirements,
etc.". -/
theorem c3_available_modules_not_transitive :
    Module.available_modules modC3a = [modC3b, modC3a] ∧
    (Module.available_modules modC3a).contains modC3c = false := by
  constructor <;> rfl

/-! ## C7: `CompilableDefinition.update` and the filters union -/

def c7self : FullDef := postInit
  { kind := .compilable, token_type := .Noun, name := some "button",
    good_xpath_templates := ["goodSelf"],
    sloppy_xpath_templates := ["sloppySelf"],
    filters := [.fn 1] }

def c7other : FullDef := postInit
  { kind := .compilable, token_type := .Noun, name := some "button",
    good_xpath_templates := ["goodOther"],
    sloppy_xpath_templates := ["sloppyOther"],
    filters := [.fn 2] }

/-- C7: merging two CompilableDefinitions unions the two template sets,
but `filters` keeps only `self`'s elements — the source's
`other_filters` local reads `other.sloppy_xpath_templates` and is
stored back into `sloppy_xpath_templates`, so `other`'s filters are
dropped (the claimed union would be `[.fn 1, .fn 2]`). -/
theorem c7_filters_not_unioned :
    (fdUpdate c7self c7other true).map FullDef.good_xpath_templates
      = .ok ["goodSelf", "goodOther"] ∧
    (fdUpdate c7self c7other true).map FullDef.sloppy_xpath_templates
      = .ok ["sloppySelf", "sloppyOther"] ∧
    (fdUpdate c7self c7other true).map FullDef.filters = .ok [.fn 1] := by
  refine ⟨?_, ?_, ?_⟩ <;> rfl

/-! ## C10: `Scanner.advance` / `Scanner.rewind` preserve the position
invariant -/

/-- C10: starting from a valid position, `advance` (resp. `rewind`)
either returns position+1 (resp. −1) with the invariant
`0 ≤ position < len(lines)` re-established, or raises and leaves the
scanner exactly as it was. -/
theorem c10_scanner_moves_validated (s : ScannerS)
    (hinv : 0 ≤ s.position ∧ s.position < (s.lines.length : Int)) :
    (∀ p s2, s.advance = (.ok p, s2) →
        p = s.position + 1 ∧ s2 = { s with position := s.position + 1 } ∧
        0 ≤ s2.position ∧ s2.position < (s2.lines.length : Int)) ∧
    (∀ u s2, s.advance = (.error u, s2) →
        s2 = s ∧ 0 ≤ s2.position ∧ s2.position < (s2.lines.length : Int)) ∧
    (∀ p s2, s.rewind = (.ok p, s2) →
        p = s.position - 1 ∧ s2 = { s with position := s.position - 1 } ∧
        0 ≤ s2.position ∧ s2.position < (s2.lines.length : Int)) ∧
    (∀ u s2, s.rewind = (.error u, s2) →
        s2 = s ∧ 0 ≤ s2.position ∧ s2.position < (s2.lines.length : Int)) := by
  obtain ⟨lines, pos⟩ := s
  refine ⟨?_, ?_, ?_, ?_⟩
  · intro p s2 h
    simp only [ScannerS.advance] at h
    split at h
    next hcond =>
      simp only [validPos, decide_eq_true_eq] at hcond
      simp only [Prod.mk.injEq, Except.ok.injEq] at h
      obtain ⟨h1, h2⟩ := h
      subst h1; subst h2
      exact ⟨rfl, rfl, hcond.1, hcond.2⟩
    next => simp at h
  · intro u s2 h
    simp only [ScannerS.advance] at h
    split at h
    next => simp at h
    next =>
      simp only [Prod.mk.injEq] at h
      obtain ⟨-, h2⟩ := h
      subst h2
      refine ⟨?_, by simpa using hinv.1, by simpa using hinv.2⟩
      simp only [ScannerS.mk.injEq, true_and]
      omega
  · intro p s2 h
    simp only [ScannerS.rewind] at h
    split at h
    next hcond =>
      simp only [validPos, decide_eq_true_eq] at hcond
      simp only [Prod.mk.injEq, Except.ok.injEq] at h
      obtain ⟨h1, h2⟩ := h
      subst h1; subst h2
      exact ⟨rfl, rfl, hcond.1, hcond.2⟩
    next => simp at h
  · intro u s2 h
    simp only [ScannerS.rewind] at h
    split at h
    next => simp at h
    next =>
      simp only [Prod.mk.injEq] at h
      obtain ⟨-, h2⟩ := h
      subst h2
      refine ⟨?_, by simpa using hinv.1, by simpa using hinv.2⟩
      simp only [ScannerS.mk.injEq, true_and]
      omega

def c10s : ScannerS := { lines := ["line one", "line two"], position := 0 }

theorem c10_witness :
    (0 ≤ c10s.position ∧ c10s.position < (c10s.lines.length : Int)) ∧
    ((∀ p s2, c10s.advance = (.ok p, s2) →
        p = c10s.position + 1 ∧ s2 = { c10s with position := c10s.position + 1 } ∧
        0 ≤ s2.position ∧ s2.position < (s2.lines.length : Int)) ∧
     (∀ u s2, c10s.advance = (.error u, s2) →
        s2 = c10s ∧ 0 ≤ s2.position ∧ s2.position < (s2.lines.length : Int)) ∧
     (∀ p s2, c10s.rewind = (.ok p, s2) →
        p = c10s.position - 1 ∧ s2 = { c10s with position := c10s.position - 1 } ∧
        0 ≤ s2.position ∧ s2.position < (s2.lines.length : Int)) ∧
     (∀ u s2, c10s.rewind = (.error u, s2) →
        s2 = c10s ∧ 0 ≤ s2.position ∧ s2.position < (s2.lines.length : Int))) :=
  ⟨by decide, c10_scanner_moves_validated c10s (by decide)⟩

/-! ## C8: over-indentation fails before anything else -/

/-- C8: when the count of leading `ScopeChange` tokens exceeds the open
scopes, `scanline` raises `GarbageInputError("Too many indents on
line")` immediately: no token list is returned, no `End` close-command
is synthesized, and the subcommand channel / current-scanner state is
untouched. -/
theorem c8_over_indent_fails_first (toks : List VTok) (scopes : List ScopeInfo)
    (st : SubState)
    (hover : (toks.takeWhile (fun t => t == VTok.scopeChange)).length > scopes.length) :
    scanlineVFS toks scopes st = (.garbage, st) := by
  simp [scanlineVFS, hover]

theorem c8_witness :
    (([VTok.scopeChange, VTok.scopeChange, VTok.other 0].takeWhile
        (fun t => t == VTok.scopeChange)).length > ([ ] : List ScopeInfo).length) ∧
    scanlineVFS [VTok.scopeChange, VTok.scopeChange, VTok.other 0] []
        { sublines := [], scannerIsSub := false }
      = (.garbage, { sublines := [], scannerIsSub := false }) :=
  ⟨by decide,
   c8_over_indent_fails_first [VTok.scopeChange, VTok.scopeChange, VTok.other 0] []
     { sublines := [], scannerIsSub := false } (by decide)⟩

/-! ## C9: alias cycle checking and retargeting -/

def c9arena : List ADef :=
  [.full "fred" .Verb, .alias "alias1" 0, .alias "alias2" 1]

/-- C9 counterexample: the claim says retargeting a `DefinitionAlias` to
a target whose chain leads back to it "fails eagerly with an error".
But `__setattr__` writes slot attributes (`target` included) straight
through the slot descriptor, bypassing the attrs validators, so the
retarget has no error path at all: retargeting `alias1` (handle 1) to
`alias2` (handle 2, whose chain already leads to handle 1) simply
succeeds and produces the cyclic chain 1 → 2 → 1; the cycle walk, run
explicitly afterwards, reports the very cycle the claim says could
never be created. -/
theorem c9_retarget_unchecked_counterexample :
    setTargetA c9arena 1 2
      = [.full "fred" .Verb, .alias "alias1" 2, .alias "alias2" 1] ∧
    attrValidateA (setTargetA c9arena 1 2) 1 = some false := by
  constructor <;> rfl

/-- C9 amended: retargeting via attribute assignment performs no cycle
check — it is the raw slot write, always succeeding — and the eager
check exists only where the validators actually run (`__init__`,
`attr.validate` during `update`/`add_definition`): an explicit
re-validation after such a retarget reports the cycle. -/
theorem c9_retarget_bypasses_validator (arena : List ADef) (nm : String)
    (i t tgt0 : Nat) (hi : arena[i]? = some (.alias nm tgt0)) :
    setTargetA arena i t = arena.set i (.alias nm t) ∧
    (validateTargetCycles (arena.set i (.alias nm t)) i (arena.length + 1) t
        = some false →
      attrValidateA (arena.set i (.alias nm t)) i = some false) := by
  have hlen : i < arena.length := by
    by_contra hcontra
    rw [List.getElem?_eq_none (Nat.le_of_not_lt hcontra)] at hi
    cases hi
  constructor
  · simp [setTargetA, hi]
  · intro hv
    have hget : (arena.set i (.alias nm t))[i]? = some (.alias nm t) := by
      rw [List.getElem?_set_self]
      simp [hlen]
    rw [attrValidateA, hget]
    simpa [List.length_set] using hv

theorem c9_witness :
    (c9arena[1]? = some (.alias "alias1" 0)) ∧
    (setTargetA c9arena 1 2 = c9arena.set 1 (.alias "alias1" 2) ∧
     (validateTargetCycles (c9arena.set 1 (.alias "alias1" 2)) 1 (c9arena.length + 1) 2
         = some false →
       attrValidateA (c9arena.set 1 (.alias "alias1" 2)) 1 = some false)) :=
  ⟨by decide, c9_retarget_bypasses_validator c9arena "alias1" 1 2 0 (by decide)⟩

/-! ## C5: surgical hook deletion in `FullDefinition.update(merge=True)` -/

/-- An updating `FullDefinition(name=d.name, token_type=d.token_type,
pattern=d.pattern, consumers=cs)`: mergeable into `d` by construction. -/
def mkOther (d : FullDef) (cs : Dict CKey (Option (Dict String (Option HookVal)))) :
    FullDef :=
  postInit { kind := .full, token_type := d.token_type, name := d.name,
             pattern := d.pattern, consumers := cs }

theorem mkOther_kind (d : FullDef) (cs) : (mkOther d cs).kind = .full := rfl

theorem mkOther_token_type (d : FullDef) (cs) :
    (mkOther d cs).token_type = d.token_type := rfl

theorem mkOther_name (d : FullDef) (cs) : (mkOther d cs).name = d.name := rfl

theorem mkOther_consumers (d : FullDef) (cs) : (mkOther d cs).consumers = cs := rfl

theorem mkOther_interpretations (d : FullDef) (cs) :
    (mkOther d cs).interpretations = [] := rfl

theorem mkOther_outputters (d : FullDef) (cs) : (mkOther d cs).outputters = [] := rfl

/-- The updating Definition for part (a): same name/type, one consumer
bucket whose single entry sets an existing hook to a falsy value. -/
def delHookOther (d : FullDef) (ck : CKey) (h : String) : FullDef :=
  mkOther d [(ck, some [(h, none)])]

/-- For part (b): the consumer key mapped to `None`. -/
def delBucketOther (d : FullDef) (ck : CKey) : FullDef :=
  mkOther d [(ck, none)]

/-- For part (c): the consumer key mapped to `{}` — falsy but not
`None`. -/
def emptyBucketOther (d : FullDef) (ck : CKey) : FullDef :=
  mkOther d [(ck, some [])]

def c5self : FullDef := postInit
  { token_type := .Verb, name := some "click",
    consumers := [(CKey.ty .Command, some [("preconsume", some (.fn 1))])] }

def c5other : FullDef := postInit
  { token_type := .Verb, name := some "click",
    consumers := [(CKey.ty .Command, some [])] }

/-- C5 counterexample: the claim says "a falsy value for the whole
consumer key deletes that entire bucket", but the code's outer check is
`hooks is None`, not falsiness: merging a Definition whose bucket for
`tokens.Command` is the falsy-but-not-None `{}` leaves the existing
bucket (and its `preconsume` hook) fully intact. -/
theorem c5_empty_bucket_not_deleted :
    (fdUpdate c5self c5other true).map FullDef.consumers
      = .ok [(CKey.ty .Command, some [("preconsume", some (.fn 1))])] := by
  rfl

/-- C5 amended: with `merge=True`, (a) a falsy value for one existing
hook deletes exactly that hook, leaving sibling hooks of the same
consumer and every other consumer bucket unchanged; (b) a `None` value
for the whole consumer key deletes that entire bucket, other buckets
unchanged; (c) a falsy-but-not-`None` value (an empty dict) does *not*
delete the bucket — it merges as a no-op. -/
theorem c5_hook_deletion_frame (d : FullDef) (ck : CKey) (h : String)
    (bucket : Dict String (Option HookVal))
    (hkind : d.kind = .full)
    (hbucket : dlookup d.consumers ck = some (some bucket))
    (hnodupc : (d.consumers.map Prod.fst).Nodup)
    (hnodupb : (bucket.map Prod.fst).Nodup)
    (hmem : dmem bucket h = true) :
    (∃ d2, fdUpdate d (delHookOther d ck h) true = .ok d2 ∧
        dlookup d2.consumers ck = some (some (ddel bucket h)) ∧
        dlookup (ddel bucket h) h = none ∧
        (∀ h2, h2 ≠ h → dlookup (ddel bucket h) h2 = dlookup bucket h2) ∧
        (∀ ck2, ck2 ≠ ck → dlookup d2.consumers ck2 = dlookup d.consumers ck2)) ∧
    (∃ d3, fdUpdate d (delBucketOther d ck) true = .ok d3 ∧
        dlookup d3.consumers ck = none ∧
        (∀ ck2, ck2 ≠ ck → dlookup d3.consumers ck2 = dlookup d.consumers ck2)) ∧
    (∃ d4, fdUpdate d (emptyBucketOther d ck) true = .ok d4 ∧
        dlookup d4.consumers ck = some (some bucket) ∧
        (∀ ck2, ck2 ≠ ck → dlookup d4.consumers ck2 = dlookup d.consumers ck2)) := by
  have hsub : issub d.token_type d.token_type = true := issub_refl d.token_type
  have hcons1 : updateHooksNested d.consumers [(ck, some [(h, none)])] true
      = dset d.consumers ck (some (ddel bucket h)) := by
    have hmerge : mergeImplementations bucket [(h, none)] = ddel bucket h := by
      simp [mergeImplementations, hmem]
    simp [updateHooksNested, hbucket, hmerge]
  have hcons2 : updateHooksNested d.consumers [(ck, none)] true
      = ddel d.consumers ck := by
    simp [updateHooksNested, hbucket]
  have hcons3 : updateHooksNested d.consumers [(ck, some [])] true
      = dset d.consumers ck (some bucket) := by
    simp [updateHooksNested, hbucket, mergeImplementations]
  have hupd1 : fdUpdate d (delHookOther d ck h) true
      = .ok { d with
          pattern := pyOr (delHookOther d ck h).pattern d.pattern,
          consumers := dset d.consumers ck (some (ddel bucket h)) } := by
    simp only [fdUpdate, delHookOther, mkOther_kind, mkOther_token_type,
      mkOther_name, mkOther_consumers, mkOther_interpretations,
      mkOther_outputters, hcons1, hkind, hsub, updateHooksFlat]
    simp
  have hupd2 : fdUpdate d (delBucketOther d ck) true
      = .ok { d with
          pattern := pyOr (delBucketOther d ck).pattern d.pattern,
          consumers := ddel d.consumers ck } := by
    simp only [fdUpdate, delBucketOther, mkOther_kind, mkOther_token_type,
      mkOther_name, mkOther_consumers, mkOther_interpretations,
      mkOther_outputters, hcons2, hkind, hsub, updateHooksFlat]
    simp
  have hupd3 : fdUpdate d (emptyBucketOther d ck) true
      = .ok { d with
          pattern := pyOr (emptyBucketOther d ck).pattern d.pattern,
          consumers := dset d.consumers ck (some bucket) } := by
    simp only [fdUpdate, emptyBucketOther, mkOther_kind, mkOther_token_type,
      mkOther_name, mkOther_consumers, mkOther_interpretations,
      mkOther_outputters, hcons3, hkind, hsub, updateHooksFlat]
    simp
  refine ⟨⟨_, hupd1, ?_, ?_, ?_, ?_⟩, ⟨_, hupd2, ?_, ?_⟩, ⟨_, hupd3, ?_, ?_⟩⟩
  · exact dlookup_dset _ _ _
  · exact dlookup_ddel bucket h hnodupb
  · intro h2 hne
    exact dlookup_ddel_ne bucket h h2 (fun he => hne he.symm)
  · intro ck2 hne
    exact dlookup_dset_ne _ _ _ _ (fun he => hne he.symm)
  · exact dlookup_ddel d.consumers ck hnodupc
  · intro ck2 hne
    exact dlookup_ddel_ne _ _ _ (fun he => hne he.symm)
  · exact dlookup_dset _ _ _
  · intro ck2 hne
    exact dlookup_dset_ne _ _ _ _ (fun he => hne he.symm)

def c5frameSelf : FullDef := postInit
  { token_type := .Verb, name := some "click",
    consumers := [(CKey.ty .Command,
                    some [("preconsume", some (.fn 1)), ("postconsume", some (.fn 2))]),
                  (CKey.str "switch", some [("pretokenize", some (.fn 3))])] }

theorem c5_witness :
    (c5frameSelf.kind = .full ∧
     dlookup c5frameSelf.consumers (CKey.ty .Command)
       = some (some [("preconsume", some (.fn 1)), ("postconsume", some (.fn 2))]) ∧
     (c5frameSelf.consumers.map Prod.fst).Nodup ∧
     (([("preconsume", some (HookVal.fn 1)), ("postconsume", some (.fn 2))] :
        Dict String (Option HookVal)).map Prod.fst).Nodup ∧
     dmem [("preconsume", some (HookVal.fn 1)), ("postconsume", some (.fn 2))]
       "preconsume" = true) ∧
    ((∃ d2, fdUpdate c5frameSelf
          (delHookOther c5frameSelf (CKey.ty .Command) "preconsume") true = .ok d2 ∧
        dlookup d2.consumers (CKey.ty .Command)
          = some (some (ddel [("preconsume", some (.fn 1)), ("postconsume", some (.fn 2))]
                    "preconsume")) ∧
        dlookup (ddel [("preconsume", some (HookVal.fn 1)), ("postconsume", some (.fn 2))]
            "preconsume") "preconsume" = none ∧
        (∀ h2, h2 ≠ "preconsume" →
          dlookup (ddel [("preconsume", some (HookVal.fn 1)), ("postconsume", some (.fn 2))]
              "preconsume") h2
            = dlookup [("preconsume", some (HookVal.fn 1)), ("postconsume", some (.fn 2))] h2) ∧
        (∀ ck2, ck2 ≠ CKey.ty .Command →
          dlookup d2.consumers ck2 = dlookup c5frameSelf.consumers ck2)) ∧
     (∃ d3, fdUpdate c5frameSelf
          (delBucketOther c5frameSelf (CKey.ty .Command)) true = .ok d3 ∧
        dlookup d3.consumers (CKey.ty .Command) = none ∧
        (∀ ck2, ck2 ≠ CKey.ty .Command →
          dlookup d3.consumers ck2 = dlookup c5frameSelf.consumers ck2)) ∧
     (∃ d4, fdUpdate c5frameSelf
          (emptyBucketOther c5frameSelf (CKey.ty .Command)) true = .ok d4 ∧
        dlookup d4.consumers (CKey.ty .Command)
          = some (some [("preconsume", some (.fn 1)), ("postconsume", some (.fn 2))]) ∧
        (∀ ck2, ck2 ≠ CKey.ty .Command →
          dlookup d4.consumers ck2 = dlookup c5frameSelf.consumers ck2))) :=
  ⟨⟨by rfl, by rfl, by decide, by decide, by rfl⟩,
   c5_hook_deletion_frame c5frameSelf (CKey.ty .Command) "preconsume"
     [("preconsume", some (.fn 1)), ("postconsume", some (.fn 2))]
     (by rfl) (by rfl) (by decide) (by decide) (by rfl)⟩

/-! ## C2: a removal mid-fold discards everything before it -/

theorem exceptBind_ok {α β : Type} (a : α) (f : α → Except LErr β) :
    (Except.ok a >>= f) = f a := rfl

theorem exceptBind_error {α β : Type} (e : LErr) (f : α → Except LErr β) :
    ((Except.error e : Except LErr α) >>= f) = Except.error e := rfl

/-- The most-recent-first token-type scan never looks past a module that
mentions the keyword, so everything older than a removal is dead to it. -/
theorem scanTokenType_stops_at_removal (xs zs : List Module) (B : Module)
    (k : String) (hk : k ≠ "")
    (hB : dlookup B.definitions (.kw k) = some none) :
    scanTokenType (xs ++ B :: zs) k = scanTokenType (xs ++ [B]) k := by
  induction xs with
  | nil =>
      have hm : dmem B.definitions (.kw k) = true := by simp [dmem, hB]
      simp [scanTokenType, hm, moduleGetKw, hk, hB]
  | cons m xs ih =>
      simp only [List.cons_append, scanTokenType]
      by_cases hm : dmem m.definitions (.kw k) = true
      · simp [hm]
      · simp only [Bool.not_eq_true] at hm
        simp [hm, ih]

/-- A stored falsy entry makes `module[key, tt]` raise
`RemovedDefinition`, which the fold turns into a reset to `None`,
whatever had accumulated. -/
theorem lexFoldStep_removal (B : Module) (k : String) (tt : TokenType)
    (acc : Option FullDef) (hk : k ≠ "")
    (hB : dlookup B.definitions (.kw k) = some none) :
    lexFoldStep k tt acc B = pure none := by
  simp [lexFoldStep, moduleResolve, hk, hB]

/-- If folding the modules before the removal does not raise, the whole
fold result coincides with folding from the removal on. -/
theorem lexFold_forgets_before_removal (ms1 ms2 : List Module) (B : Module)
    (k : String) (tt : TokenType) (acc : Option FullDef)
    (hk : k ≠ "") (hB : dlookup B.definitions (.kw k) = some none)
    (h1 : ms1.foldlM (lexFoldStep k tt) (none : Option FullDef) = .ok acc) :
    lexFold (ms1 ++ B :: ms2) k tt = lexFold (B :: ms2) k tt := by
  unfold lexFold
  rw [List.foldlM_append, h1, exceptBind_ok, List.foldlM_cons, List.foldlM_cons,
    lexFoldStep_removal B k tt acc hk hB, lexFoldStep_removal B k tt none hk hB]

/-- C2: if a later Module `B` carries a removal entry for `k`, then
whenever `lexicon[k]` over the full available list succeeds, it returns
exactly what the lexicon restricted to `B` and the modules after it
returns: the token-type scan never reads past `B`, and the fold's
accumulator is reset to `None` at `B`, so no contribution from any
module before the removal (in particular the original definer `A`)
survives — later modules re-home the keyword starting from empty. -/
theorem c2_removal_forgets_older_modules (ms1 ms2 : List Module) (B : Module)
    (k : String) (d : FullDef) (hk : k ≠ "")
    (hB : dlookup B.definitions (.kw k) = some none)
    (hok : lexGetAvail (ms1 ++ B :: ms2) k = .ok d) :
    lexGetAvail (B :: ms2) k = .ok d := by
  unfold lexGetAvail at hok ⊢
  have hrev : (ms1 ++ B :: ms2).reverse = ms2.reverse ++ B :: ms1.reverse := by
    simp
  have hrev2 : (B :: ms2).reverse = ms2.reverse ++ [B] := by simp
  rw [hrev, scanTokenType_stops_at_removal ms2.reverse ms1.reverse B k hk hB] at hok
  rw [hrev2]
  cases hsc : scanTokenType (ms2.reverse ++ [B]) k with
  | error e =>
      rw [hsc, exceptBind_error] at hok
      cases hok
  | ok tt =>
      rw [hsc, exceptBind_ok] at hok
      rw [exceptBind_ok]
      cases h1 : ms1.foldlM (lexFoldStep k tt) (none : Option FullDef) with
      | error e =>
          exfalso
          have hferr : lexFold (ms1 ++ B :: ms2) k tt = .error e := by
            unfold lexFold
            rw [List.foldlM_append, h1, exceptBind_error]
          rw [hferr, exceptBind_error] at hok
          cases hok
      | ok acc =>
          rw [lexFold_forgets_before_removal ms1 ms2 B k tt acc hk hB h1] at hok
          exact hok

def c2A : Module := .mk "A" []
  [(.kw "click", some (postInit
    { token_type := .Verb, name := some "click",
      consumers := [(CKey.ty .Command, some [("preconsume", some (.fn 1))])] }))] []

def c2B : Module := .mk "B" [] [(.kw "click", none)] []

def c2C : Module := .mk "C" []
  [(.kw "click", some (postInit
    { token_type := .Verb, name := some "click",
      consumers := [(CKey.ty .Command, some [("postconsume", some (.fn 2))])] }))] []

/-- The composite `lexicon['click']` resolves to in the A-removal-C
scenario: only C's hook, nothing of A's. -/
def c2composite : FullDef :=
  { kind := .full, token_type := .Verb, name := some "click",
    title := some "click", pattern := some "click",
    consumers := [(CKey.ty .Command, some [("postconsume", some (.fn 2))])] }

theorem c2_witness :
    ("click" ≠ "" ∧ dlookup c2B.definitions (.kw "click") = some none ∧
     lexGetAvail [c2A, c2B, c2C] "click" = .ok c2composite) ∧
    lexGetAvail [c2B, c2C] "click" = .ok c2composite :=
  ⟨⟨by decide, by rfl, by rfl⟩,
   c2_removal_forgets_older_modules [c2A] [c2C] c2B "click" c2composite
     (by decide) (by rfl) (by rfl)⟩

/-! ## Tokenizer loop lemmas (shared by the tokenizer claims) -/

/-- One successful iteration with no open error run: the matched token
is appended (whatever its category), `posttokenize` hooks run, and the
cursor jumps to the match end. -/
theorem tokenizeLoop_match_step (reg : List Module) (ct : TokenType)
    (code : List Char) (fuel : Nat) (lex lex2 : List Module) (start : Nat)
    (found : List Tok) (kw : String) (d : FullDef) (e : Nat)
    (its : List (String × FullDef))
    (hs : start < code.length)
    (hits : lexItems lex = .ok its)
    (hfind : findMatch (sortByPatLen its) code start = some (kw, d, e))
    (hfire : firePosttokenize reg ct d lex = .ok lex2) :
    tokenizeLoop reg ct code (fuel + 1) lex start none found
      = tokenizeLoop reg ct code fuel lex2 e none
          (found ++ [⟨d.token_type, start, e⟩]) := by
  simp only [tokenizeLoop]
  simp [hs, hits, hfind, hfire]

/-- The loop only ever appends to `found`: a successful run's output
extends whatever was already found. -/
theorem tokenizeLoop_ok_extends (reg : List Module) (ct : TokenType)
    (code : List Char) :
    ∀ fuel (lex : List Module) (start : Nat) (endv : Option Nat)
      (found toks : List Tok),
      tokenizeLoop reg ct code fuel lex start endv found = .ok toks →
      ∃ rest, toks = found ++ rest := by
  intro fuel
  induction fuel with
  | zero =>
      intro lex start endv found toks h
      simp [tokenizeLoop] at h
  | succ n ih =>
      intro lex start endv found toks h
      simp only [tokenizeLoop] at h
      by_cases hs : start < code.length
      · rw [if_pos hs] at h
        cases hli : lexItems lex with
        | error e =>
            simp only [hli] at h
            cases h
        | ok its =>
            simp only [hli] at h
            cases hfm : findMatch (sortByPatLen its) code start with
            | none =>
                simp only [hfm] at h
                exact ih _ _ _ _ _ h
            | some r =>
                simp only [hfm] at h
                cases endv with
                | none =>
                    cases hfp : firePosttokenize reg ct r.2.1 lex with
                    | error e =>
                        simp only [hfp] at h
                        cases h
                    | ok lex2 =>
                        simp only [hfp] at h
                        obtain ⟨rest, hrest⟩ := ih _ _ _ _ _ h
                        exact ⟨⟨r.2.1.token_type, start, r.2.2⟩ :: rest,
                          by simpa [List.append_assoc] using hrest⟩
                | some e => cases h
      · rw [if_neg hs] at h
        cases endv with
        | none =>
            cases h
            exact ⟨[], by simp⟩
        | some e => cases h

/-! ## C6: no category is filtered from `tokenize`'s output -/

def c6fred : FullDef := postInit { token_type := .Verb, name := some "fred" }

def c6space : FullDef := postInit
  { token_type := .Seperator, name := some "space", pattern := some " " }

def c6mod : Module := .mk "module1" []
  [(.kw "fred", some c6fred), (.kw "space", some c6space)] []

/-- The composite `lexicon['space']` resolves to in the C6/C4 fixture. -/
def c6spaceComp : FullDef :=
  { kind := .full, token_type := .Seperator, name := some "space",
    title := some "space", pattern := some " " }

/-- C6 counterexample: the claim says Separator-category tokens do not
appear in the token list `tokenize` returns; tokenizing `"fred fred"`
against a Lexicon whose `' '` keyword has category `Seperator` returns
the Seperator token right in the middle of the output (`tokenize`'s own
doctest shows the same: `['fred', ' ', 'fred']`). -/
theorem c6_seperator_token_returned :
    tokenize [] .Command [c6mod] "fred fred".data
      = .ok [⟨.Verb, 0, 4⟩, ⟨.Seperator, 4, 5⟩, ⟨.Verb, 5, 9⟩] ∧
    (⟨.Seperator, 4, 5⟩ : Tok) ∈ [(⟨.Verb, 0, 4⟩ : Tok), ⟨.Seperator, 4, 5⟩, ⟨.Verb, 5, 9⟩] := by
  constructor
  · rfl
  · simp

/-- C6 amended: `tokenize` performs no category-based filtering at all —
every matched token, Separator and ScopeChange categories included, is
materialized, may fire hooks, and appears in the returned token list
whenever tokenization succeeds.  (The separator/sugar filtering the
spec describes lives in the regex-table
`BasicTokenizer.scanline_with_remainder` `ignore` list of
`visionscanner.py`, not in `tokenize`.) -/
theorem c6_matched_token_always_returned (reg : List Module) (ct : TokenType)
    (code : List Char) (fuel : Nat) (lex lex2 : List Module) (start : Nat)
    (found : List Tok) (kw : String) (d : FullDef) (e : Nat)
    (its : List (String × FullDef)) (toks : List Tok)
    (hs : start < code.length)
    (hits : lexItems lex = .ok its)
    (hfind : findMatch (sortByPatLen its) code start = some (kw, d, e))
    (hfire : firePosttokenize reg ct d lex = .ok lex2)
    (hok : tokenizeLoop reg ct code (fuel + 1) lex start none found = .ok toks) :
    (⟨d.token_type, start, e⟩ : Tok) ∈ toks := by
  rw [tokenizeLoop_match_step reg ct code fuel lex lex2 start found kw d e its
    hs hits hfind hfire] at hok
  obtain ⟨rest, hrest⟩ :=
    tokenizeLoop_ok_extends reg ct code fuel lex2 e none _ toks hok
  subst hrest
  simp

theorem c6_witness :
    ((4 : Nat) < "fred fred".data.length ∧
     lexItems [c6mod] = .ok [("fred", postInit c6fred), ("space", c6spaceComp)] ∧
     findMatch (sortByPatLen [("fred", postInit c6fred), ("space", c6spaceComp)])
       "fred fred".data 4 = some ("space", c6spaceComp, 5) ∧
     firePosttokenize [] .Command c6spaceComp [c6mod] = .ok [c6mod] ∧
     tokenizeLoop [] .Command "fred fred".data 9 [c6mod] 4 none [⟨.Verb, 0, 4⟩]
       = .ok [⟨.Verb, 0, 4⟩, ⟨.Seperator, 4, 5⟩, ⟨.Verb, 5, 9⟩]) ∧
    (⟨c6spaceComp.token_type, 4, 5⟩ : Tok)
      ∈ [(⟨.Verb, 0, 4⟩ : Tok), ⟨.Seperator, 4, 5⟩, ⟨.Verb, 5, 9⟩] :=
  ⟨⟨by decide, by rfl, by rfl, by rfl, by rfl⟩,
   c6_matched_token_always_returned [] .Command "fred fred".data 8 [c6mod] [c6mod]
     4 [⟨.Verb, 0, 4⟩] "space" c6spaceComp 5
     [("fred", postInit c6fred), ("space", c6spaceComp)]
     [⟨.Verb, 0, 4⟩, ⟨.Seperator, 4, 5⟩, ⟨.Verb, 5, 9⟩]
     (by decide) (by rfl) (by rfl) (by rfl) (by rfl)⟩

/-! ## C4: the error span runs from the first unrecognized character to
the resume point -/

/-- While an unrecognized run is open the Lexicon cannot change (hooks
fire only on a match with no open run), so the scan walks one character
at a time until a pattern matches — ending the error exactly there — or
the line is exhausted. -/
theorem tokenizeLoop_scan (reg : List Module) (ct : TokenType)
    (code : List Char) (lex : List Module) (its : List (String × FullDef))
    (g t : Nat)
    (hits : lexItems lex = .ok its)
    (ht : t ≤ code.length)
    (hmatch : t < code.length → (findMatch (sortByPatLen its) code t).isSome = true) :
    ∀ fuel s found, s ≤ t →
      (∀ i, i < t → s ≤ i → findMatch (sortByPatLen its) code i = none) →
      t - s + 1 ≤ fuel →
      tokenizeLoop reg ct code fuel lex s (some g) found
        = .bad g (if t = code.length then none else some t) := by
  intro fuel
  induction fuel with
  | zero => intro s found hst hnm hf; omega
  | succ n ih =>
      intro s found hst hnm hf
      simp only [tokenizeLoop]
      by_cases hseq : s = t
      · subst hseq
        by_cases hsl : s < code.length
        · rw [if_pos hsl]
          simp only [hits]
          cases hfm : findMatch (sortByPatLen its) code s with
          | none =>
              exfalso
              have hm := hmatch hsl
              rw [hfm] at hm
              simp at hm
          | some r =>
              simp only [hfm]
              have hne : ¬ s = code.length := by omega
              simp [hne]
        · have htl : s = code.length := by omega
          rw [if_neg hsl]
          simp [htl]
      · have hslt : s < t := by omega
        have hsl : s < code.length := by omega
        rw [if_pos hsl]
        simp only [hits]
        rw [hnm s hslt (le_refl s)]
        simpa using ih (s + 1) found (by omega)
          (fun i hi hsi => hnm i hi (by omega)) (by omega)

/-- C4: reaching the first unrecognized character `g` (no candidate of
the current Lexicon matches there) with no error run open, `tokenize`
fails with `BadToken` whose span starts exactly at `g` and ends exactly
at the first later position `t` where a pattern matched again — or runs
to the end of the line when recognition never resumed (`end=None`).
Tokens recognized after the resume point are never part of the span. -/
theorem c4_error_span_exact (reg : List Module) (ct : TokenType)
    (code : List Char) (lex : List Module) (its : List (String × FullDef))
    (g t fuel : Nat) (found : List Tok)
    (hits : lexItems lex = .ok its)
    (hnm : ∀ i, i < t → g ≤ i → findMatch (sortByPatLen its) code i = none)
    (hg : g < t) (ht : t ≤ code.length)
    (hmatch : t < code.length → (findMatch (sortByPatLen its) code t).isSome = true)
    (hf : t - g + 2 ≤ fuel) :
    tokenizeLoop reg ct code fuel lex g none found
      = .bad g (if t = code.length then none else some t) := by
  obtain ⟨n, rfl⟩ : ∃ n, fuel = n + 1 := ⟨fuel - 1, by omega⟩
  simp only [tokenizeLoop]
  have hgl : g < code.length := by omega
  rw [if_pos hgl]
  simp only [hits]
  rw [hnm g hg (le_refl g)]
  simpa using tokenizeLoop_scan reg ct code lex its g t hits ht hmatch n (g + 1)
    found (by omega) (fun i hi hsi => hnm i hi (by omega)) (by omega)

def c4fred : FullDef := postInit { token_type := .Verb, name := some "fred" }

def c4space : FullDef := postInit
  { token_type := .Seperator, name := some "space", pattern := some " " }

def c4mod : Module := .mk "m" []
  [(.kw "fred", some c4fred), (.kw "space", some c4space)] []

def c4spaceComp : FullDef :=
  { kind := .full, token_type := .Seperator, name := some "space",
    title := some "space", pattern := some " " }

def c4its : List (String × FullDef) :=
  [("fred", postInit c4fred), ("space", c4spaceComp)]

theorem c4_witness :
    (lexItems [c4mod] = .ok c4its ∧
     (∀ i, i < 12 → 5 ≤ i →
        findMatch (sortByPatLen c4its) "fred GARBAGE fred".data i = none) ∧
     (5 : Nat) < 12 ∧ (12 : Nat) ≤ "fred GARBAGE fred".data.length ∧
     ((12 : Nat) < "fred GARBAGE fred".data.length →
        (findMatch (sortByPatLen c4its) "fred GARBAGE fred".data 12).isSome = true) ∧
     12 - 5 + 2 ≤ 16) ∧
    tokenizeLoop [] .Command "fred GARBAGE fred".data 16 [c4mod] 5 none
        [⟨.Verb, 0, 4⟩, ⟨.Seperator, 4, 5⟩]
      = .bad 5 (some 12) :=
  ⟨⟨by rfl, by decide, by decide, by decide, by decide, by decide⟩,
   by
     have h := c4_error_span_exact [] .Command "fred GARBAGE fred".data [c4mod]
       c4its 5 12 16 [⟨.Verb, 0, 4⟩, ⟨.Seperator, 4, 5⟩]
       (by rfl) (by decide) (by decide) (by decide) (by decide) (by decide)
     simpa using h⟩

/-! ## C1: `posttokenize` hooks mutate the Lexicon mid-line

The scenario family of the spec's hook-driven self-mutation property,
parametric in the keyword texts: a base module defines `f` (whose
`posttokenize` hook appends the modifying module), `w`, and the `' '`
separator; the modifying module defines `b`, removes `w`, and also
carries the separator (keywords a module does not mention have their
pattern reset to the name-derived default by the re-resolution fold, so
a module that retracts nothing else re-declares the separator). -/

def c1space : FullDef := postInit
  { token_type := .Token, name := some "space", pattern := some " " }

def c1verb (n : String) : FullDef := postInit { token_type := .Verb, name := some n }

def c1hook (f : String) : FullDef := postInit
  { token_type := .Verb, name := some f,
    consumers := [(CKey.ty .Command,
      some [("posttokenize", some (.addModules ["modifying module"]))])] }

def c1modM (b w : String) : Module := .mk "modifying module" []
  [(.kw b, some (c1verb b)), (.kw w, none), (.kw "space", some c1space)] []

def c1baseM (f b w : String) : Module := .mk "base module" []
  [(.kw f, some (c1hook f)), (.kw w, some (c1verb w)), (.kw "space", some c1space)] []

/-- The fresh Definition `Module.__getitem__` / the Lexicon fold start
from. -/
def c1init (k : String) (tt : TokenType) : FullDef :=
  postInit { kind := .full, token_type := tt, name := some k }

/-- Composite the Lexicon resolves `f` to. -/
def c1cf (f : String) : FullDef :=
  { kind := .full, token_type := .Verb, name := some f, title := some f,
    pattern := some f,
    consumers := [(CKey.ty .Command,
      some [("posttokenize", some (.addModules ["modifying module"]))])] }

/-- Composite for a plain Verb keyword. -/
def c1cv (n : String) : FullDef :=
  { kind := .full, token_type := .Verb, name := some n, title := some n,
    pattern := some n }

/-- Composite for the separator keyword. -/
def c1cs : FullDef :=
  { kind := .full, token_type := .Token, name := some "space",
    title := some "space", pattern := some " " }

theorem c1init_eq (k : String) (tt : TokenType) (hk0 : k ≠ "")
    (hkp : defaultPattern k = k) :
    c1init k tt = { kind := .full, token_type := tt, name := some k,
                    title := some k, pattern := some k } := by
  simp [c1init, postInit, pyOr, strFalsy, hk0, hkp]

/-- The type-default walk of `Module.__getitem__` is the identity on
modules that store no token-type keys. -/
theorem walk_skips_without_ty (m : Module) (kw : Option String)
    (hnoty : ∀ t : TokenType, dlookup m.definitions (.ty t) = none) :
    ∀ (l : List TokenType) (d : FullDef),
      (l.foldlM (fun d t =>
        match dlookup m.definitions (.ty t) with
        | some none => (.error .removed : Except LErr FullDef)
        | some (some stored) => fdUpdate d (aliasView kw stored) true
        | none => pure d) d) = pure d := by
  intro l
  induction l with
  | nil => intro d; rfl
  | cons t rest ih =>
      intro d
      rw [List.foldlM_cons, hnoty t]
      exact ih d

/-- `FullDefinition.update(other, merge=True)` between two plain
FullDefinitions of compatible name and type: the checks pass and the
field combinators apply. -/
theorem fdUpdate_full_simple (a b : FullDef)
    (ha : a.kind = .full) (hb : b.kind = .full)
    (htt : issub b.token_type a.token_type = true ∨
           issub a.token_type b.token_type = true)
    (hn : a.name = b.name) :
    fdUpdate a b true = .ok { a with
      pattern := pyOr b.pattern a.pattern,
      consumers := updateHooksNested a.consumers b.consumers true,
      outputters := updateHooksFlat a.outputters b.outputters true,
      interpretations := updateHooksFlat a.interpretations b.interpretations true } := by
  simp only [fdUpdate, ha, hb, hn]
  rcases htt with h | h <;> simp [h]

/-- `Module.__getitem__`'s common tail on a module with no type-default
entries and an untouched `module_definitions`. -/
theorem moduleCommon_no_ty (m : Module) (k : String) (tt : TokenType)
    (hmd : m.module_definitions = [])
    (hnoty : ∀ t : TokenType, dlookup m.definitions (.ty t) = none) :
    moduleCommon m (some k) tt =
      match dlookup m.definitions (.kw k) with
      | some (some stored) => fdUpdate (c1init k tt) stored true
      | some none => .error .typeError
      | none => pure (c1init k tt) := by
  have hnone : ∀ l : List DefKey,
      List.findSome? (fun k2 => dlookup m.module_definitions k2) l = none := by
    intro l
    induction l with
    | nil => rfl
    | cons x rest ih => simp [List.findSome?_cons, hmd, dlookup, ih]
  have hdt : findDefType m (some k) tt = .full := by
    simp [findDefType, hnone]
  unfold moduleCommon
  simp only [hdt]
  rw [walk_skips_without_ty m (some k) hnoty]
  rfl

theorem c1base_no_ty (f b w : String) :
    ∀ t : TokenType, dlookup (c1baseM f b w).definitions (.ty t) = none := by
  intro t
  simp [c1baseM, Module.definitions, dlookup]

theorem c1mod_no_ty (b w : String) :
    ∀ t : TokenType, dlookup (c1modM b w).definitions (.ty t) = none := by
  intro t
  simp [c1modM, Module.definitions, dlookup]

theorem aliasView_eq (kw : String) (d : FullDef) (p : String) (hkw : kw ≠ "")
    (hd : d.pattern = some p) :
    aliasView (some kw) d = { d with name := some kw, pattern := some p,
                                     title := some kw } := by
  simp [aliasView, hd, pyOr, strFalsy, hkw]

theorem c1tail_base_f (f b w : String) (hf0 : f ≠ "")
    (hfp : defaultPattern f = f) :
    moduleCommon (c1baseM f b w) (some f) .Verb = .ok (c1cf f) := by
  have hl : dlookup (c1baseM f b w).definitions (.kw f) = some (some (c1hook f)) := by
    simp [c1baseM, Module.definitions, dlookup]
  rw [moduleCommon_no_ty _ _ _ (by rfl) (c1base_no_ty f b w)]
  simp only [hl]
  rw [c1init_eq f .Verb hf0 hfp,
      fdUpdate_full_simple _ _ (by rfl) (by rfl) (by exact Or.inl rfl) (by rfl)]
  have hp2 : pyOr (c1hook f).pattern (some f) = some f := by
    have hp : (c1hook f).pattern = some (defaultPattern f) := rfl
    rw [hp, hfp]
    simp [pyOr, strFalsy, hf0]
  rw [hp2]
  rfl

theorem c1tail_base_w (f b w : String) (hw0 : w ≠ "")
    (hwp : defaultPattern w = w) (hfw : f ≠ w) :
    moduleCommon (c1baseM f b w) (some w) .Verb = .ok (c1cv w) := by
  have hl : dlookup (c1baseM f b w).definitions (.kw w) = some (some (c1verb w)) := by
    simp [c1baseM, Module.definitions, dlookup, hfw]
  rw [moduleCommon_no_ty _ _ _ (by rfl) (c1base_no_ty f b w)]
  simp only [hl]
  rw [c1init_eq w .Verb hw0 hwp,
      fdUpdate_full_simple _ _ (by rfl) (by rfl) (by exact Or.inl rfl) (by rfl)]
  have hp2 : pyOr (c1verb w).pattern (some w) = some w := by
    have hp : (c1verb w).pattern = some (defaultPattern w) := rfl
    rw [hp, hwp]
    simp [pyOr, strFalsy, hw0]
  rw [hp2]
  rfl

theorem c1tail_base_space (f b w : String) (hfs : f ≠ "space") (hws : w ≠ "space") :
    moduleCommon (c1baseM f b w) (some "space") .Token = .ok c1cs := by
  have hl : dlookup (c1baseM f b w).definitions (.kw "space") = some (some c1space) := by
    simp [c1baseM, Module.definitions, dlookup, hfs, hws]
  rw [moduleCommon_no_ty _ _ _ (by rfl) (c1base_no_ty f b w)]
  simp only [hl]
  rw [c1init_eq "space" .Token (by decide) (by rfl),
      fdUpdate_full_simple _ _ (by rfl) (by rfl) (by exact Or.inl rfl) (by rfl)]
  rfl

theorem c1tail_base_b (f b w : String) (hb0 : b ≠ "") (hbp : defaultPattern b = b)
    (hbf : b ≠ f) (hbw : b ≠ w) (hbs : b ≠ "space") :
    moduleCommon (c1baseM f b w) (some b) .Verb = .ok (c1cv b) := by
  have hl : dlookup (c1baseM f b w).definitions (.kw b) = none := by
    simp [c1baseM, Module.definitions, dlookup, Ne.symm hbf, Ne.symm hbw, Ne.symm hbs]
  rw [moduleCommon_no_ty _ _ _ (by rfl) (c1base_no_ty f b w)]
  simp only [hl]
  rw [c1init_eq b .Verb hb0 hbp]
  rfl

theorem c1tail_mod_f (f b w : String) (hf0 : f ≠ "") (hfp : defaultPattern f = f)
    (hbf : b ≠ f) (hfw : f ≠ w) (hfs : f ≠ "space") :
    moduleCommon (c1modM b w) (some f) .Verb = .ok (c1cv f) := by
  have hl : dlookup (c1modM b w).definitions (.kw f) = none := by
    simp [c1modM, Module.definitions, dlookup, hbf, Ne.symm hfw, Ne.symm hfs]
  rw [moduleCommon_no_ty _ _ _ (by rfl) (c1mod_no_ty b w)]
  simp only [hl]
  rw [c1init_eq f .Verb hf0 hfp]
  rfl

theorem c1tail_mod_b (b w : String) (hb0 : b ≠ "") (hbp : defaultPattern b = b) :
    moduleCommon (c1modM b w) (some b) .Verb = .ok (c1cv b) := by
  have hl : dlookup (c1modM b w).definitions (.kw b) = some (some (c1verb b)) := by
    simp [c1modM, Module.definitions, dlookup]
  rw [moduleCommon_no_ty _ _ _ (by rfl) (c1mod_no_ty b w)]
  simp only [hl]
  rw [c1init_eq b .Verb hb0 hbp,
      fdUpdate_full_simple _ _ (by rfl) (by rfl) (by exact Or.inl rfl) (by rfl)]
  have hp2 : pyOr (c1verb b).pattern (some b) = some b := by
    have hp : (c1verb b).pattern = some (defaultPattern b) := rfl
    rw [hp, hbp]
    simp [pyOr, strFalsy, hb0]
  rw [hp2]
  rfl

theorem c1tail_mod_space (b w : String) (hbs : b ≠ "space") (hws : w ≠ "space") :
    moduleCommon (c1modM b w) (some "space") .Token = .ok c1cs := by
  have hl : dlookup (c1modM b w).definitions (.kw "space") = some (some c1space) := by
    simp [c1modM, Module.definitions, dlookup, hbs, hws]
  rw [moduleCommon_no_ty _ _ _ (by rfl) (c1mod_no_ty b w)]
  simp only [hl]
  rw [c1init_eq "space" .Token (by decide) (by rfl),
      fdUpdate_full_simple _ _ (by rfl) (by rfl) (by exact Or.inl rfl) (by rfl)]
  rfl

theorem c1get_base_f (f b w : String) (hf0 : f ≠ "") (hfp : defaultPattern f = f) :
    moduleGetKw (c1baseM f b w) f = .ok (c1cf f) := by
  have hl : dlookup (c1baseM f b w).definitions (.kw f) = some (some (c1hook f)) := by
    simp [c1baseM, Module.definitions, dlookup]
  unfold moduleGetKw
  rw [if_pos hf0]
  simp only [hl]
  exact c1tail_base_f f b w hf0 hfp

theorem c1get_base_w (f b w : String) (hw0 : w ≠ "") (hwp : defaultPattern w = w)
    (hfw : f ≠ w) :
    moduleGetKw (c1baseM f b w) w = .ok (c1cv w) := by
  have hl : dlookup (c1baseM f b w).definitions (.kw w) = some (some (c1verb w)) := by
    simp [c1baseM, Module.definitions, dlookup, hfw]
  unfold moduleGetKw
  rw [if_pos hw0]
  simp only [hl]
  exact c1tail_base_w f b w hw0 hwp hfw

theorem c1get_base_space (f b w : String) (hfs : f ≠ "space") (hws : w ≠ "space") :
    moduleGetKw (c1baseM f b w) "space" = .ok c1cs := by
  have hl : dlookup (c1baseM f b w).definitions (.kw "space") = some (some c1space) := by
    simp [c1baseM, Module.definitions, dlookup, hfs, hws]
  unfold moduleGetKw
  rw [if_pos (by decide : ("space" : String) ≠ "")]
  simp only [hl]
  exact c1tail_base_space f b w hfs hws

theorem c1get_mod_b (b w : String) (hb0 : b ≠ "") (hbp : defaultPattern b = b) :
    moduleGetKw (c1modM b w) b = .ok (c1cv b) := by
  have hl : dlookup (c1modM b w).definitions (.kw b) = some (some (c1verb b)) := by
    simp [c1modM, Module.definitions, dlookup]
  unfold moduleGetKw
  rw [if_pos hb0]
  simp only [hl]
  exact c1tail_mod_b b w hb0 hbp

theorem c1get_mod_w (b w : String) (hw0 : w ≠ "") (hbw : b ≠ w) :
    moduleGetKw (c1modM b w) w = .error .removed := by
  have hl : dlookup (c1modM b w).definitions (.kw w) = some none := by
    simp [c1modM, Module.definitions, dlookup, hbw]
  unfold moduleGetKw
  rw [if_pos hw0]
  simp only [hl]

theorem c1get_mod_space (b w : String) (hbs : b ≠ "space") (hws : w ≠ "space") :
    moduleGetKw (c1modM b w) "space" = .ok c1cs := by
  have hl : dlookup (c1modM b w).definitions (.kw "space") = some (some c1space) := by
    simp [c1modM, Module.definitions, dlookup, hbs, hws]
  unfold moduleGetKw
  rw [if_pos (by decide : ("space" : String) ≠ "")]
  simp only [hl]
  exact c1tail_mod_space b w hbs hws

/-- The consumer bucket the scenario's hook keyword carries. -/
def c1hookCs : Dict CKey (Option (Dict String (Option HookVal))) :=
  [(CKey.ty .Command, some [("posttokenize", some (.addModules ["modifying module"]))])]

/-- The common shape of every composite the scenario's Lexicon resolves:
name-titled, single-pattern, carrying a consumer map. -/
def c1comp (k p : String) (cs : Dict CKey (Option (Dict String (Option HookVal))))
    (tt : TokenType) : FullDef :=
  { kind := .full, token_type := tt, name := some k, title := some k,
    pattern := some p, consumers := cs }

theorem c1res_base_f (f b w : String) (hf0 : f ≠ "") (hfp : defaultPattern f = f) :
    moduleResolve (c1baseM f b w) (some f) .Verb = .ok (c1cf f) := by
  have hl : dlookup (c1baseM f b w).definitions (.kw f) = some (some (c1hook f)) := by
    simp [c1baseM, Module.definitions, dlookup]
  simp only [moduleResolve]
  rw [if_neg (by rw [hl]; simp)]
  exact c1tail_base_f f b w hf0 hfp

theorem c1res_base_w (f b w : String) (hw0 : w ≠ "") (hwp : defaultPattern w = w)
    (hfw : f ≠ w) :
    moduleResolve (c1baseM f b w) (some w) .Verb = .ok (c1cv w) := by
  have hl : dlookup (c1baseM f b w).definitions (.kw w) = some (some (c1verb w)) := by
    simp [c1baseM, Module.definitions, dlookup, hfw]
  simp only [moduleResolve]
  rw [if_neg (by rw [hl]; simp)]
  exact c1tail_base_w f b w hw0 hwp hfw

theorem c1res_base_space (f b w : String) (hfs : f ≠ "space") (hws : w ≠ "space") :
    moduleResolve (c1baseM f b w) (some "space") .Token = .ok c1cs := by
  have hl : dlookup (c1baseM f b w).definitions (.kw "space") = some (some c1space) := by
    simp [c1baseM, Module.definitions, dlookup, hfs, hws]
  simp only [moduleResolve]
  rw [if_neg (by rw [hl]; simp)]
  exact c1tail_base_space f b w hfs hws

theorem c1res_base_b (f b w : String) (hb0 : b ≠ "") (hbp : defaultPattern b = b)
    (hbf : b ≠ f) (hbw : b ≠ w) (hbs : b ≠ "space") :
    moduleResolve (c1baseM f b w) (some b) .Verb = .ok (c1cv b) := by
  have hl : dlookup (c1baseM f b w).definitions (.kw b) = none := by
    simp [c1baseM, Module.definitions, dlookup, Ne.symm hbf, Ne.symm hbw, Ne.symm hbs]
  simp only [moduleResolve]
  rw [if_neg (by rw [hl]; simp)]
  exact c1tail_base_b f b w hb0 hbp hbf hbw hbs

theorem c1res_mod_f (f b w : String) (hf0 : f ≠ "") (hfp : defaultPattern f = f)
    (hbf : b ≠ f) (hfw : f ≠ w) (hfs : f ≠ "space") :
    moduleResolve (c1modM b w) (some f) .Verb = .ok (c1cv f) := by
  have hl : dlookup (c1modM b w).definitions (.kw f) = none := by
    simp [c1modM, Module.definitions, dlookup, hbf, Ne.symm hfw, Ne.symm hfs]
  simp only [moduleResolve]
  rw [if_neg (by rw [hl]; simp)]
  exact c1tail_mod_f f b w hf0 hfp hbf hfw hfs

theorem c1res_mod_b (b w : String) (hb0 : b ≠ "") (hbp : defaultPattern b = b) :
    moduleResolve (c1modM b w) (some b) .Verb = .ok (c1cv b) := by
  have hl : dlookup (c1modM b w).definitions (.kw b) = some (some (c1verb b)) := by
    simp [c1modM, Module.definitions, dlookup]
  simp only [moduleResolve]
  rw [if_neg (by rw [hl]; simp)]
  exact c1tail_mod_b b w hb0 hbp

theorem c1res_mod_space (b w : String) (hbs : b ≠ "space") (hws : w ≠ "space") :
    moduleResolve (c1modM b w) (some "space") .Token = .ok c1cs := by
  have hl : dlookup (c1modM b w).definitions (.kw "space") = some (some c1space) := by
    simp [c1modM, Module.definitions, dlookup, hbs, hws]
  simp only [moduleResolve]
  rw [if_neg (by rw [hl]; simp)]
  exact c1tail_mod_space b w hbs hws

/-- One Lexicon-fold step from an empty accumulator: the module's
contribution (alias-wrapped) lands on the fresh base unchanged. -/
theorem c1step_none (m : Module) (k p : String)
    (cs : Dict CKey (Option (Dict String (Option HookVal)))) (tt : TokenType)
    (hk0 : k ≠ "") (hkp : defaultPattern k = k) (hp0 : p ≠ "")
    (hcs : updateHooksNested [] cs true = cs)
    (hres : moduleResolve m (some k) tt = .ok (c1comp k p cs tt)) :
    lexFoldStep k tt none m = .ok (some (c1comp k p cs tt)) := by
  unfold lexFoldStep
  simp only [hres]
  have ha : aliasView (some k) (c1comp k p cs tt) = c1comp k p cs tt := by
    rw [aliasView_eq k _ p hk0 (by rfl)]
    rfl
  rw [ha]
  have hi : postInit
      { kind := (c1comp k p cs tt).kind, token_type := tt, name := some k }
      = ({ kind := .full, token_type := tt, name := some k,
           title := some k, pattern := some k } : FullDef) :=
    c1init_eq k tt hk0 hkp
  rw [hi, fdUpdate_full_simple _ _ (by rfl) (by rfl)
      (by exact Or.inl (issub_refl tt)) (by rfl)]
  have hp2 : pyOr (c1comp k p cs tt).pattern (some k) = some p := by
    have hp : (c1comp k p cs tt).pattern = some p := rfl
    rw [hp]
    simp [pyOr, strFalsy, hp0]
  rw [hp2]
  have hcs2 : updateHooksNested ([] : Dict CKey (Option (Dict String (Option HookVal))))
      (c1comp k p cs tt).consumers true = cs := hcs
  rw [hcs2]
  rfl

/-- One Lexicon-fold step onto an accumulator of the same class and
pattern: merging leaves the accumulated composite intact (the incoming
consumer map merging into the accumulated one by `hcs`). -/
theorem c1step_some (m : Module) (k p : String)
    (cs cs2 : Dict CKey (Option (Dict String (Option HookVal)))) (tt : TokenType)
    (hk0 : k ≠ "") (hp0 : p ≠ "")
    (hcs : updateHooksNested cs cs2 true = cs)
    (hres : moduleResolve m (some k) tt = .ok (c1comp k p cs2 tt)) :
    lexFoldStep k tt (some (c1comp k p cs tt)) m = .ok (some (c1comp k p cs tt)) := by
  unfold lexFoldStep
  simp only [hres]
  rw [if_neg (by simp [c1comp])]
  have ha : aliasView (some k) (c1comp k p cs2 tt) = c1comp k p cs2 tt := by
    rw [aliasView_eq k _ p hk0 (by rfl)]
    rfl
  rw [ha, fdUpdate_full_simple _ _ (by rfl) (by rfl)
      (by exact Or.inl (issub_refl tt)) (by rfl)]
  have hp2 : pyOr (c1comp k p cs2 tt).pattern (c1comp k p cs tt).pattern = some p := by
    have hp : (c1comp k p cs2 tt).pattern = some p := rfl
    rw [hp]
    simp [pyOr, strFalsy, hp0]
  rw [hp2]
  have hcs2 : updateHooksNested (c1comp k p cs tt).consumers
      (c1comp k p cs2 tt).consumers true = cs := hcs
  rw [hcs2]
  rfl

theorem c1scan_base_f (f b w : String) (hf0 : f ≠ "") (hfp : defaultPattern f = f) :
    scanTokenType [c1baseM f b w] f = .ok .Verb := by
  have hm : dmem (c1baseM f b w).definitions (.kw f) = true := by
    simp [c1baseM, Module.definitions, dmem, dlookup]
  simp [scanTokenType, hm, c1get_base_f f b w hf0 hfp]
  rfl

theorem c1scan_base_w (f b w : String) (hw0 : w ≠ "") (hwp : defaultPattern w = w)
    (hfw : f ≠ w) :
    scanTokenType [c1baseM f b w] w = .ok .Verb := by
  have hm : dmem (c1baseM f b w).definitions (.kw w) = true := by
    simp [c1baseM, Module.definitions, dmem, dlookup, hfw]
  simp [scanTokenType, hm, c1get_base_w f b w hw0 hwp hfw]
  rfl

theorem c1scan_base_space (f b w : String) (hfs : f ≠ "space") (hws : w ≠ "space") :
    scanTokenType [c1baseM f b w] "space" = .ok .Token := by
  have hm : dmem (c1baseM f b w).definitions (.kw "space") = true := by
    simp [c1baseM, Module.definitions, dmem, dlookup, hfs, hws]
  simp [scanTokenType, hm, c1get_base_space f b w hfs hws]
  rfl

theorem c1scan_modbase_f (f b w : String) (hf0 : f ≠ "") (hfp : defaultPattern f = f)
    (hbf : b ≠ f) (hfw : f ≠ w) (hfs : f ≠ "space") :
    scanTokenType [c1modM b w, c1baseM f b w] f = .ok .Verb := by
  have hm2 : dmem (c1modM b w).definitions (.kw f) = false := by
    simp [c1modM, Module.definitions, dmem, dlookup, hbf, Ne.symm hfw, Ne.symm hfs]
  have hm : dmem (c1baseM f b w).definitions (.kw f) = true := by
    simp [c1baseM, Module.definitions, dmem, dlookup]
  simp [scanTokenType, hm2, hm, c1get_base_f f b w hf0 hfp]
  rfl

theorem c1scan_modbase_b (f b w : String) (hb0 : b ≠ "") (hbp : defaultPattern b = b) :
    scanTokenType [c1modM b w, c1baseM f b w] b = .ok .Verb := by
  have hm : dmem (c1modM b w).definitions (.kw b) = true := by
    simp [c1modM, Module.definitions, dmem, dlookup]
  simp [scanTokenType, hm, c1get_mod_b b w hb0 hbp]
  rfl

theorem c1scan_modbase_space (f b w : String) (hbs : b ≠ "space") (hws : w ≠ "space") :
    scanTokenType [c1modM b w, c1baseM f b w] "space" = .ok .Token := by
  have hm : dmem (c1modM b w).definitions (.kw "space") = true := by
    simp [c1modM, Module.definitions, dmem, dlookup, hbs, hws]
  simp [scanTokenType, hm, c1get_mod_space b w hbs hws]
  rfl

theorem c1x_base_f (f b w : String) (hf0 : f ≠ "") (hfp : defaultPattern f = f) :
    lexGetAvail [c1baseM f b w] f = .ok (c1cf f) := by
  unfold lexGetAvail
  have hrev : List.reverse [c1baseM f b w] = [c1baseM f b w] := rfl
  rw [hrev, c1scan_base_f f b w hf0 hfp, exceptBind_ok]
  unfold lexFold
  rw [List.foldlM_cons]
  have h1 : lexFoldStep f .Verb none (c1baseM f b w)
      = .ok (some (c1comp f f c1hookCs .Verb)) :=
    c1step_none (c1baseM f b w) f f c1hookCs .Verb hf0 hfp hf0 (by rfl)
      (c1res_base_f f b w hf0 hfp)
  rw [h1, exceptBind_ok]
  rfl

theorem c1x_base_w (f b w : String) (hw0 : w ≠ "") (hwp : defaultPattern w = w)
    (hfw : f ≠ w) :
    lexGetAvail [c1baseM f b w] w = .ok (c1cv w) := by
  unfold lexGetAvail
  have hrev : List.reverse [c1baseM f b w] = [c1baseM f b w] := rfl
  rw [hrev, c1scan_base_w f b w hw0 hwp hfw, exceptBind_ok]
  unfold lexFold
  rw [List.foldlM_cons]
  have h1 : lexFoldStep w .Verb none (c1baseM f b w)
      = .ok (some (c1comp w w [] .Verb)) :=
    c1step_none (c1baseM f b w) w w [] .Verb hw0 hwp hw0 (by rfl)
      (c1res_base_w f b w hw0 hwp hfw)
  rw [h1, exceptBind_ok]
  rfl

theorem c1x_base_space (f b w : String) (hfs : f ≠ "space") (hws : w ≠ "space") :
    lexGetAvail [c1baseM f b w] "space" = .ok c1cs := by
  unfold lexGetAvail
  have hrev : List.reverse [c1baseM f b w] = [c1baseM f b w] := rfl
  rw [hrev, c1scan_base_space f b w hfs hws, exceptBind_ok]
  unfold lexFold
  rw [List.foldlM_cons]
  have h1 : lexFoldStep "space" .Token none (c1baseM f b w)
      = .ok (some (c1comp "space" " " [] .Token)) :=
    c1step_none (c1baseM f b w) "space" " " [] .Token (by decide) (by rfl)
      (by decide) (by rfl) (c1res_base_space f b w hfs hws)
  rw [h1, exceptBind_ok]
  rfl

theorem c1x_bm_f (f b w : String) (hf0 : f ≠ "") (hfp : defaultPattern f = f)
    (hbf : b ≠ f) (hfw : f ≠ w) (hfs : f ≠ "space") :
    lexGetAvail [c1baseM f b w, c1modM b w] f = .ok (c1cf f) := by
  unfold lexGetAvail
  have hrev : List.reverse [c1baseM f b w, c1modM b w]
      = [c1modM b w, c1baseM f b w] := rfl
  rw [hrev, c1scan_modbase_f f b w hf0 hfp hbf hfw hfs, exceptBind_ok]
  unfold lexFold
  rw [List.foldlM_cons]
  have h1 : lexFoldStep f .Verb none (c1baseM f b w)
      = .ok (some (c1comp f f c1hookCs .Verb)) :=
    c1step_none (c1baseM f b w) f f c1hookCs .Verb hf0 hfp hf0 (by rfl)
      (c1res_base_f f b w hf0 hfp)
  rw [h1, exceptBind_ok, List.foldlM_cons]
  have h2 : lexFoldStep f .Verb (some (c1comp f f c1hookCs .Verb)) (c1modM b w)
      = .ok (some (c1comp f f c1hookCs .Verb)) :=
    c1step_some (c1modM b w) f f c1hookCs [] .Verb hf0 hf0 (by rfl)
      (c1res_mod_f f b w hf0 hfp hbf hfw hfs)
  rw [h2, exceptBind_ok]
  rfl

theorem c1x_bm_space (f b w : String) (hfs : f ≠ "space") (hws : w ≠ "space")
    (hbs : b ≠ "space") :
    lexGetAvail [c1baseM f b w, c1modM b w] "space" = .ok c1cs := by
  unfold lexGetAvail
  have hrev : List.reverse [c1baseM f b w, c1modM b w]
      = [c1modM b w, c1baseM f b w] := rfl
  rw [hrev, c1scan_modbase_space f b w hbs hws, exceptBind_ok]
  unfold lexFold
  rw [List.foldlM_cons]
  have h1 : lexFoldStep "space" .Token none (c1baseM f b w)
      = .ok (some (c1comp "space" " " [] .Token)) :=
    c1step_none (c1baseM f b w) "space" " " [] .Token (by decide) (by rfl)
      (by decide) (by rfl) (c1res_base_space f b w hfs hws)
  rw [h1, exceptBind_ok, List.foldlM_cons]
  have h2 : lexFoldStep "space" .Token (some (c1comp "space" " " [] .Token))
      (c1modM b w) = .ok (some (c1comp "space" " " [] .Token)) :=
    c1step_some (c1modM b w) "space" " " [] [] .Token (by decide) (by decide)
      (by rfl) (c1res_mod_space b w hbs hws)
  rw [h2, exceptBind_ok]
  rfl

theorem c1x_bm_b (f b w : String) (hb0 : b ≠ "") (hbp : defaultPattern b = b)
    (hbf : b ≠ f) (hbw : b ≠ w) (hbs : b ≠ "space") :
    lexGetAvail [c1baseM f b w, c1modM b w] b = .ok (c1cv b) := by
  unfold lexGetAvail
  have hrev : List.reverse [c1baseM f b w, c1modM b w]
      = [c1modM b w, c1baseM f b w] := rfl
  rw [hrev, c1scan_modbase_b f b w hb0 hbp, exceptBind_ok]
  unfold lexFold
  rw [List.foldlM_cons]
  have h1 : lexFoldStep b .Verb none (c1baseM f b w)
      = .ok (some (c1comp b b [] .Verb)) :=
    c1step_none (c1baseM f b w) b b [] .Verb hb0 hbp hb0 (by rfl)
      (c1res_base_b f b w hb0 hbp hbf hbw hbs)
  rw [h1, exceptBind_ok, List.foldlM_cons]
  have h2 : lexFoldStep b .Verb (some (c1comp b b [] .Verb)) (c1modM b w)
      = .ok (some (c1comp b b [] .Verb)) :=
    c1step_some (c1modM b w) b b [] [] .Verb hb0 hb0 (by rfl)
      (c1res_mod_b b w hb0 hbp)
  rw [h2, exceptBind_ok]
  rfl

theorem exceptMap_ok {α β : Type} (g : α → β) (a : α) :
    (g <$> (Except.ok a : Except LErr α)) = Except.ok (g a) := rfl

theorem c1keys_base (f b w : String) (hf0 : f ≠ "") (hfp : defaultPattern f = f)
    (hw0 : w ≠ "") (hwp : defaultPattern w = w) (hfw : f ≠ w)
    (hfs : f ≠ "space") (hws : w ≠ "space") :
    lexKeys [c1baseM f b w] = .ok [f, w, "space"] := by
  have h1 := c1get_base_f f b w hf0 hfp
  have h2 := c1get_base_w f b w hw0 hwp hfw
  have h3 := c1get_base_space f b w hfs hws
  have hwf : w ≠ f := Ne.symm hfw
  have hsf : "space" ≠ f := Ne.symm hfs
  have hsw : "space" ≠ w := Ne.symm hws
  have hdb : (c1baseM f b w).definitions
      = [(DefKey.kw f, some (c1hook f)), (DefKey.kw w, some (c1verb w)),
         (DefKey.kw "space", some c1space)] := rfl
  simp [lexKeys, hdb, h1, h2, h3, hwf, hsf, hsw]
  rfl

theorem c1keys_bm (f b w : String) (hf0 : f ≠ "") (hfp : defaultPattern f = f)
    (hw0 : w ≠ "") (hwp : defaultPattern w = w) (hfw : f ≠ w)
    (hfs : f ≠ "space") (hws : w ≠ "space")
    (hb0 : b ≠ "") (hbp : defaultPattern b = b)
    (hbf : b ≠ f) (hbw : b ≠ w) (hbs : b ≠ "space") :
    lexKeys [c1baseM f b w, c1modM b w] = .ok [f, "space", b] := by
  have h1 := c1get_base_f f b w hf0 hfp
  have h2 := c1get_base_w f b w hw0 hwp hfw
  have h3 := c1get_base_space f b w hfs hws
  have h4 := c1get_mod_b b w hb0 hbp
  have h5 := c1get_mod_w b w hw0 hbw
  have h6 := c1get_mod_space b w hbs hws
  have hwf : w ≠ f := Ne.symm hfw
  have hsf : "space" ≠ f := Ne.symm hfs
  have hsw : "space" ≠ w := Ne.symm hws
  have hdb : (c1baseM f b w).definitions
      = [(DefKey.kw f, some (c1hook f)), (DefKey.kw w, some (c1verb w)),
         (DefKey.kw "space", some c1space)] := rfl
  have hdm : (c1modM b w).definitions
      = [(DefKey.kw b, some (c1verb b)), (DefKey.kw w, none),
         (DefKey.kw "space", some c1space)] := rfl
  simp [lexKeys, hdb, hdm, h1, h2, h3, h4, h5, h6,
        hwf, hsf, hsw, hbf, hbw, hbs, hfw, hws]
  rfl

theorem c1items_base (f b w : String) (hf0 : f ≠ "") (hfp : defaultPattern f = f)
    (hw0 : w ≠ "") (hwp : defaultPattern w = w) (hfw : f ≠ w)
    (hfs : f ≠ "space") (hws : w ≠ "space") :
    lexItems [c1baseM f b w] = .ok [(f, c1cf f), (w, c1cv w), ("space", c1cs)] := by
  have hav : lexiconAvailable [c1baseM f b w] = [c1baseM f b w] := rfl
  have hk := c1keys_base f b w hf0 hfp hw0 hwp hfw hfs hws
  simp [lexItems, hav, hk, List.mapM.loop, exceptBind_ok, exceptMap_ok,
        c1x_base_f f b w hf0 hfp, c1x_base_w f b w hw0 hwp hfw,
        c1x_base_space f b w hfs hws]

theorem c1items_bm (f b w : String) (hf0 : f ≠ "") (hfp : defaultPattern f = f)
    (hw0 : w ≠ "") (hwp : defaultPattern w = w) (hfw : f ≠ w)
    (hfs : f ≠ "space") (hws : w ≠ "space")
    (hb0 : b ≠ "") (hbp : defaultPattern b = b)
    (hbf : b ≠ f) (hbw : b ≠ w) (hbs : b ≠ "space") :
    lexItems [c1baseM f b w, c1modM b w]
      = .ok [(f, c1cf f), ("space", c1cs), (b, c1cv b)] := by
  have hav : lexiconAvailable [c1baseM f b w, c1modM b w]
      = [c1baseM f b w, c1modM b w] := rfl
  have hk := c1keys_bm f b w hf0 hfp hw0 hwp hfw hfs hws hb0 hbp hbf hbw hbs
  simp [lexItems, hav, hk, List.mapM.loop, exceptBind_ok, exceptMap_ok,
        c1x_bm_f f b w hf0 hfp hbf hfw hfs,
        c1x_bm_space f b w hfs hws hbs,
        c1x_bm_b f b w hb0 hbp hbf hbw hbs]

/-- Exhausting the line with no open error run returns the tokens found. -/
theorem tokenizeLoop_done (reg : List Module) (ct : TokenType) (code : List Char)
    (fuel : Nat) (lex : List Module) (start : Nat) (found : List Tok)
    (h : ¬ start < code.length) :
    tokenizeLoop reg ct code (fuel + 1) lex start none found = .ok found := by
  simp only [tokenizeLoop]
  rw [if_neg h]

theorem strLen_pos (s : String) (h : s ≠ "") : 0 < s.length := by
  cases s with
  | mk l =>
      cases l with
      | nil => exact absurd rfl h
      | cons c cs => simp [String.length]

/-- **C1.**  The hook-driven self-mutation of the Lexicon, parametric in
the keyword texts `f` (the triggering command, whose composite carries a
`posttokenize` hook for `Command` appending the modifying module), `b`
(defined only by the modifying module) and `w` (defined by the base
module, retracted by the modifying one); the modifying module also
re-declares the `' '` separator.  Under the scenario's side conditions
(nonempty, pairwise distinct, single-word keywords, and the stated
pattern-match facts about the two lines):
(1) tokenizing `f ⬝ ' ' ⬝ b` against the base Lexicon succeeds — after
the match of `f` fires the hook, `b` (a keyword only of the appended
module) is recognized in the remainder of the same line;
(2) tokenizing `b ⬝ ' ' ⬝ f`, where `b` precedes the trigger, fails as
unrecognized input spanning exactly `b`;
(3) a Lexicon already carrying the appended module (a later line)
recognizes `b` on its own. -/
theorem c1_posttokenize_mutates_lexicon (f b w : String)
    (hf0 : f ≠ "") (hfp : defaultPattern f = f)
    (hw0 : w ≠ "") (hwp : defaultPattern w = w)
    (hb0 : b ≠ "") (hbp : defaultPattern b = b)
    (hfw : f ≠ w) (hfs : f ≠ "space") (hws : w ≠ "space")
    (hbf : b ≠ f) (hbw : b ≠ w) (hbs : b ≠ "space")
    (hm1 : findMatch (sortByPatLen [(f, c1cf f), (w, c1cv w), ("space", c1cs)])
             (f.data ++ ' ' :: b.data) 0 = some (f, c1cf f, f.length))
    (hm2 : findMatch (sortByPatLen [(f, c1cf f), ("space", c1cs), (b, c1cv b)])
             (f.data ++ ' ' :: b.data) f.length = some ("space", c1cs, f.length + 1))
    (hm3 : findMatch (sortByPatLen [(f, c1cf f), ("space", c1cs), (b, c1cv b)])
             (f.data ++ ' ' :: b.data) (f.length + 1)
             = some (b, c1cv b, f.length + 1 + b.length))
    (hn2 : ∀ i, i < b.length →
             findMatch (sortByPatLen [(f, c1cf f), (w, c1cv w), ("space", c1cs)])
               (b.data ++ ' ' :: f.data) i = none)
    (hm4 : (findMatch (sortByPatLen [(f, c1cf f), (w, c1cv w), ("space", c1cs)])
             (b.data ++ ' ' :: f.data) b.length).isSome = true)
    (hm5 : findMatch (sortByPatLen [(f, c1cf f), ("space", c1cs), (b, c1cv b)])
             b.data 0 = some (b, c1cv b, b.length)) :
    tokenize [c1modM b w] .Command [c1baseM f b w] (f.data ++ ' ' :: b.data)
      = .ok [⟨.Verb, 0, f.length⟩, ⟨.Token, f.length, f.length + 1⟩,
             ⟨.Verb, f.length + 1, f.length + 1 + b.length⟩] ∧
    tokenize [c1modM b w] .Command [c1baseM f b w] (b.data ++ ' ' :: f.data)
      = .bad 0 (some b.length) ∧
    tokenize [c1modM b w] .Command [c1baseM f b w, c1modM b w] b.data
      = .ok [⟨.Verb, 0, b.length⟩] := by
  have hF : 0 < f.length := strLen_pos f hf0
  have hB : 0 < b.length := strLen_pos b hb0
  have hfd : f.data.length = f.length := rfl
  have hbd : b.data.length = b.length := rfl
  have hlen1 : (f.data ++ ' ' :: b.data).length = f.length + 1 + b.length := by
    simp only [List.length_append, List.length_cons, hfd, hbd]
    omega
  have hlen2 : (b.data ++ ' ' :: f.data).length = b.length + 1 + f.length := by
    simp only [List.length_append, List.length_cons, hfd, hbd]
    omega
  have hits0 := c1items_base f b w hf0 hfp hw0 hwp hfw hfs hws
  have hits1 := c1items_bm f b w hf0 hfp hw0 hwp hfw hfs hws hb0 hbp hbf hbw hbs
  have hfireA : firePosttokenize [c1modM b w] .Command (c1cf f) [c1baseM f b w]
      = .ok [c1baseM f b w, c1modM b w] := rfl
  have hfireB : firePosttokenize [c1modM b w] .Command c1cs
      [c1baseM f b w, c1modM b w] = .ok [c1baseM f b w, c1modM b w] := rfl
  have hfireC : firePosttokenize [c1modM b w] .Command (c1cv b)
      [c1baseM f b w, c1modM b w] = .ok [c1baseM f b w, c1modM b w] := rfl
  refine ⟨?_, ?_, ?_⟩
  · unfold tokenize
    have hfuel : (f.data ++ ' ' :: b.data).length + 1
        = f.length + b.length - 2 + 1 + 1 + 1 + 1 := by omega
    rw [hfuel]
    rw [tokenizeLoop_match_step [c1modM b w] .Command (f.data ++ ' ' :: b.data)
        (f.length + b.length - 2 + 1 + 1 + 1) [c1baseM f b w]
        [c1baseM f b w, c1modM b w] 0 [] f (c1cf f) f.length
        [(f, c1cf f), (w, c1cv w), ("space", c1cs)]
        (by omega) hits0 hm1 hfireA]
    rw [tokenizeLoop_match_step [c1modM b w] .Command (f.data ++ ' ' :: b.data)
        (f.length + b.length - 2 + 1 + 1) [c1baseM f b w, c1modM b w]
        [c1baseM f b w, c1modM b w] f.length _ "space" c1cs (f.length + 1)
        [(f, c1cf f), ("space", c1cs), (b, c1cv b)]
        (by omega) hits1 hm2 hfireB]
    rw [tokenizeLoop_match_step [c1modM b w] .Command (f.data ++ ' ' :: b.data)
        (f.length + b.length - 2 + 1) [c1baseM f b w, c1modM b w]
        [c1baseM f b w, c1modM b w] (f.length + 1) _ b (c1cv b)
        (f.length + 1 + b.length) [(f, c1cf f), ("space", c1cs), (b, c1cv b)]
        (by omega) hits1 hm3 hfireC]
    rw [tokenizeLoop_done _ _ _ _ _ _ _ (by omega)]
    rfl
  · unfold tokenize
    obtain ⟨m, hm⟩ : ∃ m, (b.data ++ ' ' :: f.data).length + 1 = m + 1 :=
      ⟨(b.data ++ ' ' :: f.data).length, rfl⟩
    rw [hm]
    simp only [tokenizeLoop]
    rw [if_pos (show 0 < (b.data ++ ' ' :: f.data).length by omega)]
    simp only [hits0]
    rw [hn2 0 (by omega)]
    simp only [Option.getD]
    have hsc := tokenizeLoop_scan [c1modM b w] .Command (b.data ++ ' ' :: f.data)
        [c1baseM f b w] [(f, c1cf f), (w, c1cv w), ("space", c1cs)] 0 b.length
        hits0 (by omega) (fun _ => hm4) m 1 [] (by omega)
        (fun i hi _ => hn2 i hi) (by omega)
    rw [hsc, if_neg (by omega)]
  · unfold tokenize
    rw [tokenizeLoop_match_step [c1modM b w] .Command b.data b.data.length
        [c1baseM f b w, c1modM b w] [c1baseM f b w, c1modM b w] 0 [] b (c1cv b)
        b.length [(f, c1cf f), ("space", c1cs), (b, c1cv b)]
        (by omega) hits1 hm5 hfireC]
    obtain ⟨m2, hm2len⟩ : ∃ m2, b.data.length = m2 + 1 := ⟨b.length - 1, by omega⟩
    rw [hm2len]
    rw [tokenizeLoop_done _ _ _ _ _ _ _ (by omega)]
    rfl

theorem c1_witness :
    tokenize [c1modM "barney" "wilma"] .Command [c1baseM "fred" "barney" "wilma"]
        ("fred".data ++ ' ' :: "barney".data)
      = .ok [⟨.Verb, 0, 4⟩, ⟨.Token, 4, 5⟩, ⟨.Verb, 5, 11⟩] ∧
    tokenize [c1modM "barney" "wilma"] .Command [c1baseM "fred" "barney" "wilma"]
        ("barney".data ++ ' ' :: "fred".data)
      = .bad 0 (some 6) ∧
    tokenize [c1modM "barney" "wilma"] .Command
        [c1baseM "fred" "barney" "wilma", c1modM "barney" "wilma"] "barney".data
      = .ok [⟨.Verb, 0, 6⟩] :=
  c1_posttokenize_mutates_lexicon "fred" "barney" "wilma"
    (by decide) (by rfl) (by decide) (by rfl) (by decide) (by rfl)
    (by decide) (by decide) (by decide) (by decide) (by decide) (by decide)
    (by rfl) (by rfl) (by rfl) (by decide) (by rfl) (by rfl)

end Vision
